import Mathlib

/-!
# Shallow embedding of the fox-bytecode interpreter

This file embeds the data model, the bytecode codec, the stack virtual
machine (`src/backend/machine.rs`) and the relevant emission routines of the
single-pass compiler (`src/frontend/assembler.rs`) of the fox-bytecode
repository, and proves or refutes the frozen specification claims about them.

Modeling conventions:
* Rust's `Rc`-shared heap objects (closures, classes, instances, upvalue
  cells) are represented by natural-number identifiers into explicit heap
  lists carried in the machine state; `Rc::ptr_eq` becomes identifier
  equality.
* Rust byte values (`u8`) and sizes (`usize`) are `Nat`; where the source can
  overflow or panic the model makes that explicit (see `vecSet`, `vecGet`).
* Fallible Rust functions returning `MachineResult<T>` become
  `Except MachineError` values; a Rust index-out-of-bounds panic is modeled
  as an `Except.error` whose text starts with `Model(panic)`.
* `f32` numbers are modeled by `Double`: exact rationals for finite values
  plus the special values `inf`, `negInf` and `nan`, with IEEE-754 equality
  (in particular `nan` compares unequal to itself, as `f32` does in Rust).
  Finite arithmetic is exact (overflow to infinity is not modeled); no claim
  in this development depends on finite rounding.
-/

namespace Fox

/-- Model of the source's `Double` (`f32`): exact rationals plus the IEEE
special values. `nan` is needed because the claims quantify over every
`Number` value and `f32` equality is not reflexive at NaN. -/
inductive Double where
  | finite (q : ℚ)
  | inf
  | negInf
  | nan
deriving DecidableEq, Repr

/-- IEEE-754 `==` on the modeled `f32` values: finite values compare by
value, infinities by sign, and `nan` is unequal to everything (itself
included). This is the comparison Rust's derived/primitive `l == r` on
`f32` performs inside `PartialEq for Value`. -/
def Double.ieeeEq : Double → Double → Bool
  | .finite a, .finite b => a == b
  | .inf, .inf => true
  | .negInf, .negInf => true
  | _, _ => false

/-- IEEE negation of a modeled `f32`. -/
def Double.neg : Double → Double
  | .finite q => .finite (-q)
  | .inf => .negInf
  | .negInf => .inf
  | .nan => .nan

/-- IEEE addition on the modeled `f32` values (finite part exact). -/
def Double.add : Double → Double → Double
  | .nan, _ => .nan
  | _, .nan => .nan
  | .finite a, .finite b => .finite (a + b)
  | .inf, .negInf => .nan
  | .negInf, .inf => .nan
  | .inf, _ => .inf
  | _, .inf => .inf
  | .negInf, _ => .negInf
  | _, .negInf => .negInf

/-- IEEE subtraction, defined as addition of the negation. -/
def Double.sub (a b : Double) : Double := Double.add a (Double.neg b)

/-- IEEE multiplication on the modeled `f32` values (finite part exact);
`∞ × 0` is `nan`. -/
def Double.mul : Double → Double → Double
  | .nan, _ => .nan
  | _, .nan => .nan
  | .finite a, .finite b => .finite (a * b)
  | .inf, .finite b => if 0 < b then .inf else if b < 0 then .negInf else .nan
  | .finite a, .inf => if 0 < a then .inf else if a < 0 then .negInf else .nan
  | .negInf, .finite b => if 0 < b then .negInf else if b < 0 then .inf else .nan
  | .finite a, .negInf => if 0 < a then .negInf else if a < 0 then .inf else .nan
  | .inf, .inf => .inf
  | .negInf, .negInf => .inf
  | .inf, .negInf => .negInf
  | .negInf, .inf => .negInf

/-- IEEE division on the modeled `f32` values. The interpreter only divides
after ruling out a zero divisor (`Value.divide`), so the zero-divisor arm
here is unreachable from the embedded code. -/
def Double.div : Double → Double → Double
  | .nan, _ => .nan
  | _, .nan => .nan
  | .finite a, .finite b => if b = 0 then .nan else .finite (a / b)
  | .finite _, .inf => .finite 0
  | .finite _, .negInf => .finite 0
  | .inf, .finite b => if b < 0 then .negInf else .inf
  | .negInf, .finite b => if b < 0 then .inf else .negInf
  | _, _ => .nan

/-- IEEE `>` on the modeled `f32` values: any comparison with `nan` is
false. -/
def Double.gt : Double → Double → Bool
  | .finite a, .finite b => decide (b < a)
  | .inf, .inf => false
  | .inf, _ => true
  | .negInf, .negInf => false
  | _, .negInf => true
  | _, _ => false

/-- IEEE `<` on the modeled `f32` values. -/
def Double.lt (a b : Double) : Bool := Double.gt b a

/-- Display form of a number, used only for string concatenation and
printing. Modelled from the spec ("coerces the other side via its display
form"); the exact decimal rendering of Rust's `f32` `Display` is not needed
by any claim, so finite values render via `ℚ`'s `toString`. -/
def Double.display : Double → String
  | .finite q => if q.den = 1 then toString q.num else toString q
  | .inf => "inf"
  | .negInf => "-inf"
  | .nan => "NaN"

/-- The `Value` tagged union (`src/data/value.rs`), extended with the
object variants the backend (`src/backend/machine.rs`) and `src/data/class.rs`
require (`Class`, `Instance`, `Bound`). Shared objects carry a heap
identifier standing for the `Rc` pointer, so `Rc::ptr_eq` is identifier
equality. -/
inductive Value where
  | nil
  | number (d : Double)
  | bool (b : Bool)
  | text (s : String)
  | fn (id : Nat)
  | nativeFun (id : Nat)
  | closure (id : Nat)
  | classRef (id : Nat)
  | instanceRef (id : Nat)
  | bound (id : Nat)
deriving DecidableEq, Repr

/-- `PartialEq for Value` (`src/data/value.rs` lines 23–36): `Nil = Nil`;
`Number`, `Bool`, `Text` by value (`f32` equality for numbers);
`Fun`, `NativeFun`, `Closure` by `Rc::ptr_eq`; every other pairing —
including the backend-only object variants — falls into the `_ => false`
catch-all. -/
def Value.eq : Value → Value → Bool
  | .nil, .nil => true
  | .number l, .number r => Double.ieeeEq l r
  | .bool l, .bool r => l == r
  | .text l, .text r => l == r
  | .fn l, .fn r => l == r
  | .nativeFun l, .nativeFun r => l == r
  | .closure l, .closure r => l == r
  | _, _ => false

/-- `Value::as_bool` (`src/data/value.rs` lines 99–105): `Nil` and
`Bool(false)` are falsey, everything else is truthy. -/
def Value.as_bool : Value → Bool
  | .nil => false
  | .bool value => value
  | _ => true

/-- `Value::as_number`. -/
def Value.as_number : Value → Option Double
  | .number x => some x
  | _ => none

/-- `Value::as_text`. -/
def Value.as_text : Value → Option String
  | .text s => some s
  | _ => none

/-- `Value::as_function`. -/
def Value.as_function : Value → Option Nat
  | .fn id => some id
  | _ => none

/-- `Display for Value`. Primitive variants render exactly as in the
source; object variants carry only a heap identifier in this embedding, so
they render schematically (no claim depends on their display form). -/
def Value.display : Value → String
  | .nil => "nil"
  | .bool b => if b then "true" else "false"
  | .number d => d.display
  | .text s => s
  | .fn _ => "<fn>"
  | .nativeFun _ => "<native fn>"
  | .closure _ => "<closure>"
  | .classRef _ => "<class>"
  | .instanceRef _ => "<instance>"
  | .bound _ => "<bound>"

/-- `OperationError` (`src/data/value.rs`). -/
inductive OperationError where
  | TypeMismatch
  | DivisionByZero
deriving DecidableEq, Repr

/-- `Value::add`: numeric addition, or string concatenation when either
side is `Text` (the other side coerced via its display form). -/
def Value.add : Value → Value → Except OperationError Value
  | .number x, .number y => .ok (.number (Double.add x y))
  | val, .text x => .ok (.text (val.display ++ x))
  | .text x, val => .ok (.text (x ++ val.display))
  | _, _ => .error .TypeMismatch

/-- `Value::subtract`. -/
def Value.subtract : Value → Value → Except OperationError Value
  | .number x, .number y => .ok (.number (Double.sub x y))
  | _, _ => .error .TypeMismatch

/-- `Value::multiply`. -/
def Value.multiply : Value → Value → Except OperationError Value
  | .number x, .number y => .ok (.number (Double.mul x y))
  | _, _ => .error .TypeMismatch

/-- `Value::divide`: a divisor that IEEE-compares equal to `0.0` is
reported as `DivisionByZero` before dividing. -/
def Value.divide : Value → Value → Except OperationError Value
  | .number x, .number y =>
    if Double.ieeeEq y (.finite 0) then .error .DivisionByZero
    else .ok (.number (Double.div x y))
  | _, _ => .error .TypeMismatch

/-- `Value::equals`: always succeeds, wrapping `PartialEq` in a `Bool`
value. -/
def Value.equals (a b : Value) : Except OperationError Value :=
  .ok (.bool (Value.eq a b))

/-- `Value::greater`. -/
def Value.greater : Value → Value → Except OperationError Value
  | .number x, .number y => .ok (.bool (Double.gt x y))
  | _, _ => .error .TypeMismatch

/-- `Value::less`. -/
def Value.less : Value → Value → Except OperationError Value
  | .number x, .number y => .ok (.bool (Double.lt x y))
  | _, _ => .error .TypeMismatch

end Fox

namespace Fox

/-! ## Bytecode instructions (`src/data/instruction.rs`) -/

def OPCODE_CONSTANT : Nat := 0
def OPCODE_NIL : Nat := 1
def OPCODE_TRUE : Nat := 2
def OPCODE_FALSE : Nat := 3
def OPCODE_NEGATE : Nat := 4
def OPCODE_ADD : Nat := 5
def OPCODE_SUBTRACT : Nat := 6
def OPCODE_MULTIPLY : Nat := 7
def OPCODE_DIVIDE : Nat := 8
def OPCODE_RETURN : Nat := 9
def OPCODE_NOT : Nat := 10
def OPCODE_LESS : Nat := 11
def OPCODE_GREATER : Nat := 12
def OPCODE_EQUAL : Nat := 13
def OPCODE_PRINT : Nat := 14
def OPCODE_POP : Nat := 15
def OPCODE_DEFINE_GLOBAL : Nat := 16
def OPCODE_GET_GLOBAL : Nat := 17
def OPCODE_SET_GLOBAL : Nat := 18
def OPCODE_GET_LOCAL : Nat := 19
def OPCODE_SET_LOCAL : Nat := 20
def OPCODE_JUMP_IF_FALSE : Nat := 21
def OPCODE_JUMP : Nat := 22
def OPCODE_LOOP : Nat := 23
def OPCODE_DUPLICATE : Nat := 24
def OPCODE_CALL : Nat := 25
def OPCODE_CLOSURE : Nat := 26

/-- The `Instruction` enum of `src/data/instruction.rs`. Single-byte
operands are `Nat` values below 256. -/
inductive Instruction where
  | Constant (idx : Nat)
  | Equal
  | Greater
  | Less
  | Nil
  | True
  | False
  | Negate
  | Add
  | Subtract
  | Multiply
  | Divide
  | Not
  | Print
  | Return
  | Pop
  | DefineGlobal (idx : Nat)
  | GetGlobal (idx : Nat)
  | SetGlobal (idx : Nat)
  | GetLocal (slot : Nat)
  | SetLocal (slot : Nat)
  | JumpIfFalse (first second : Nat)
  | Jump (first second : Nat)
  | Loop (first second : Nat)
  | Duplicate
  | Call (argc : Nat)
  | Closure (idx : Nat)
deriving DecidableEq, Repr

/-- `Instruction::stub_jump_if_false`: a forward jump emitted with the
`0xFFFF` stub offset, patched later. -/
def Instruction.stub_jump_if_false : Instruction := .JumpIfFalse 0xff 0xff

/-- `Instruction::stub_jump`. -/
def Instruction.stub_jump : Instruction := .Jump 0xff 0xff

/-- `Instruction::as_vec`: the byte encoding (opcode followed by raw
operand bytes). -/
def Instruction.as_vec : Instruction → List Nat
  | .Constant val => [OPCODE_CONSTANT, val]
  | .Equal => [OPCODE_EQUAL]
  | .Nil => [OPCODE_NIL]
  | .True => [OPCODE_TRUE]
  | .False => [OPCODE_FALSE]
  | .Negate => [OPCODE_NEGATE]
  | .Add => [OPCODE_ADD]
  | .Subtract => [OPCODE_SUBTRACT]
  | .Multiply => [OPCODE_MULTIPLY]
  | .Divide => [OPCODE_DIVIDE]
  | .Not => [OPCODE_NOT]
  | .Return => [OPCODE_RETURN]
  | .Greater => [OPCODE_GREATER]
  | .Less => [OPCODE_LESS]
  | .Print => [OPCODE_PRINT]
  | .Pop => [OPCODE_POP]
  | .DefineGlobal val => [OPCODE_DEFINE_GLOBAL, val]
  | .GetGlobal val => [OPCODE_GET_GLOBAL, val]
  | .SetGlobal val => [OPCODE_SET_GLOBAL, val]
  | .GetLocal val => [OPCODE_GET_LOCAL, val]
  | .SetLocal val => [OPCODE_SET_LOCAL, val]
  | .JumpIfFalse f s => [OPCODE_JUMP_IF_FALSE, f, s]
  | .Jump f s => [OPCODE_JUMP, f, s]
  | .Loop f s => [OPCODE_LOOP, f, s]
  | .Duplicate => [OPCODE_DUPLICATE]
  | .Call args => [OPCODE_CALL, args]
  | .Closure val => [OPCODE_CLOSURE, val]

/-- `Instruction::size`. -/
def Instruction.size (i : Instruction) : Nat := i.as_vec.length

/-- `FetchError` (`src/data/instruction.rs`). -/
inductive FetchError where
  | Unknown (x : Nat)
  | Broken
  | End
  | Other (val : String)
deriving DecidableEq, Repr

/-- `Display for FetchError`. -/
def FetchError.display : FetchError → String
  | .Unknown x => s!"Unknown instruction {x}"
  | .Broken => "Broken instruction"
  | .End => "End of program"
  | .Other val => val

/-- `consume` (`src/data/instruction.rs`): read one byte, advancing the
offset. The mutable `&mut usize` offset becomes an explicit returned
offset. -/
def consume (buffer : List Nat) (offset : Nat) : Option (Nat × Nat) :=
  match buffer.get? offset with
  | none => none
  | some byte => some (byte, offset + 1)

/-- `Instruction::fetch`: decode one instruction starting at `offset`,
returning it with the advanced offset. -/
def Instruction.fetch (buffer : List Nat) (offset : Nat) :
    Except FetchError (Instruction × Nat) :=
  match consume buffer offset with
  | none => .error .End
  | some (byte, o1) =>
    if byte = OPCODE_CONSTANT then
      match consume buffer o1 with
      | none => .error .Broken
      | some (arg1, o2) => .ok (.Constant arg1, o2)
    else if byte = OPCODE_EQUAL then .ok (.Equal, o1)
    else if byte = OPCODE_GREATER then .ok (.Greater, o1)
    else if byte = OPCODE_LESS then .ok (.Less, o1)
    else if byte = OPCODE_NEGATE then .ok (.Negate, o1)
    else if byte = OPCODE_NIL then .ok (.Nil, o1)
    else if byte = OPCODE_TRUE then .ok (.True, o1)
    else if byte = OPCODE_FALSE then .ok (.False, o1)
    else if byte = OPCODE_ADD then .ok (.Add, o1)
    else if byte = OPCODE_SUBTRACT then .ok (.Subtract, o1)
    else if byte = OPCODE_MULTIPLY then .ok (.Multiply, o1)
    else if byte = OPCODE_DIVIDE then .ok (.Divide, o1)
    else if byte = OPCODE_NOT then .ok (.Not, o1)
    else if byte = OPCODE_PRINT then .ok (.Print, o1)
    else if byte = OPCODE_RETURN then .ok (.Return, o1)
    else if byte = OPCODE_POP then .ok (.Pop, o1)
    else if byte = OPCODE_DEFINE_GLOBAL then
      match consume buffer o1 with
      | none => .error .Broken
      | some (arg1, o2) => .ok (.DefineGlobal arg1, o2)
    else if byte = OPCODE_GET_GLOBAL then
      match consume buffer o1 with
      | none => .error .Broken
      | some (arg1, o2) => .ok (.GetGlobal arg1, o2)
    else if byte = OPCODE_SET_GLOBAL then
      match consume buffer o1 with
      | none => .error .Broken
      | some (arg1, o2) => .ok (.SetGlobal arg1, o2)
    else if byte = OPCODE_GET_LOCAL then
      match consume buffer o1 with
      | none => .error .Broken
      | some (arg1, o2) => .ok (.GetLocal arg1, o2)
    else if byte = OPCODE_SET_LOCAL then
      match consume buffer o1 with
      | none => .error .Broken
      | some (arg1, o2) => .ok (.SetLocal arg1, o2)
    else if byte = OPCODE_JUMP_IF_FALSE then
      match consume buffer o1 with
      | none => .error .Broken
      | some (low, o2) =>
        match consume buffer o2 with
        | none => .error .Broken
        | some (high, o3) => .ok (.JumpIfFalse low high, o3)
    else if byte = OPCODE_JUMP then
      match consume buffer o1 with
      | none => .error .Broken
      | some (low, o2) =>
        match consume buffer o2 with
        | none => .error .Broken
        | some (high, o3) => .ok (.Jump low high, o3)
    else if byte = OPCODE_LOOP then
      match consume buffer o1 with
      | none => .error .Broken
      | some (low, o2) =>
        match consume buffer o2 with
        | none => .error .Broken
        | some (high, o3) => .ok (.Loop low high, o3)
    else if byte = OPCODE_DUPLICATE then .ok (.Duplicate, o1)
    else if byte = OPCODE_CALL then
      match consume buffer o1 with
      | none => .error .Broken
      | some (arg, o2) => .ok (.Call arg, o2)
    else if byte = OPCODE_CLOSURE then
      match consume buffer o1 with
      | none => .error .Broken
      | some (arg, o2) => .ok (.Closure arg, o2)
    else .error (.Unknown byte)

/-! ## Upvalue descriptors (`src/data/upvalue_data.rs`) -/

/-- `UpvalueData`: the two-byte descriptor following a `Closure`
instruction. -/
structure UpvalueData where
  index : Nat
  is_local : Bool
deriving DecidableEq, Repr

/-- `UpvalueData::fetch`: read `(is_local, index)` as two bytes, advancing
the offset. -/
def UpvalueData.fetch (buffer : List Nat) (offset : Nat) :
    Option (UpvalueData × Nat) :=
  match consume buffer offset with
  | none => none
  | some (localByte, o1) =>
    match consume buffer o1 with
    | none => none
    | some (index, o2) => some ({ is_local := localByte ≠ 0, index := index }, o2)

/-- `UpvalueData::as_vec`. -/
def UpvalueData.as_vec (d : UpvalueData) : List Nat :=
  [if d.is_local then 1 else 0, d.index]

/-! ## Chunks (`src/data/chunk.rs`) -/

/-- `Chunk`: byte buffer, constant pool, and the per-byte line table. -/
structure Chunk where
  code : List Nat
  constants : List Value
  line : List Nat
deriving Repr

/-- `Chunk::new` / `Default`. -/
def Chunk.new : Chunk := { code := [], constants := [], line := [] }

/-- `Chunk::write_u8`: append one code byte with its source line. -/
def Chunk.write_u8 (c : Chunk) (byte : Nat) (ln : Nat) : Chunk :=
  { c with code := c.code ++ [byte], line := c.line ++ [ln] }

/-- `Chunk::patch_u8`: overwrite the code byte at `offset`. -/
def Chunk.patch_u8 (c : Chunk) (byte : Nat) (offset : Nat) : Chunk :=
  { c with code := c.code.set offset byte }

/-- `Chunk::add_constant`: append to the constant pool, returning the new
constant's index. -/
def Chunk.add_constant (c : Chunk) (value : Value) : Chunk × Nat :=
  ({ c with constants := c.constants ++ [value] }, c.constants.length)

/-- `Chunk::read_const`. -/
def Chunk.read_const (c : Chunk) (idx : Nat) : Option Value :=
  c.constants.get? idx

/-- `Chunk::fetch`. -/
def Chunk.fetch (c : Chunk) (offset : Nat) : Except FetchError (Instruction × Nat) :=
  Instruction.fetch c.code offset

/-- `Chunk::line_number`. -/
def Chunk.line_number (c : Chunk) (idx : Nat) : Option Nat :=
  c.line.get? idx

/-- `Chunk::size`. -/
def Chunk.size (c : Chunk) : Nat := c.code.length

/-- `Chunk::write_buffer`. Modelled from the spec: the method is called by
`Compiler::emit_buffer` but its body is not present under `src/`; per the
chunk invariant ("the line table has exactly one entry per code byte") it
appends each byte with the given line. -/
def Chunk.write_buffer (c : Chunk) (buffer : List Nat) (ln : Nat) : Chunk :=
  { c with code := c.code ++ buffer, line := c.line ++ buffer.map (fun _ => ln) }

/-- `Chunk::upvalue_data`. Modelled from the spec: the method is called by
`CallFrame::fetch_upvalue_data` but its body is not present under `src/`;
it reads one two-byte upvalue descriptor from the code buffer at the
instruction pointer (`UpvalueData::fetch`, which is present). -/
def Chunk.upvalue_data (c : Chunk) (offset : Nat) : Option (UpvalueData × Nat) :=
  UpvalueData.fetch c.code offset

end Fox

namespace Fox

/-! ## Heap objects (`src/data/func.rs`, `src/data/class.rs`)

`Rc<T>`-shared mutable objects live in heap lists inside the machine state
and are addressed by their list index; `Rc::ptr_eq` is index equality.
`Func` is immutable after compilation, so closures and call frames store it
by value. -/

/-- `Func` (`src/data/func.rs`): arity, chunk, optional name, upvalue
count. -/
structure Func where
  arity : Nat
  chunk : Chunk
  name : Option String
  upvalue_count : Nat
deriving Repr

/-- An `Upvalue` cell (`src/data/func.rs`): open (`Stack`, holding a value
stack index), closed (`Heap`, owning the captured value — the inner
`Shared<Value>` cell is inlined since its identity is never compared), or
the fresh `Nil` placeholder installed by `Closure::new`. -/
inductive Upvalue where
  | Stack (idx : Nat)
  | Heap (v : Value)
  | Nil
deriving DecidableEq, Repr

/-- `Closure` (`src/data/func.rs`): a function descriptor plus the
identifiers of its shared upvalue cells. -/
structure ClosureObj where
  func : Func
  upvalues : List Nat
deriving Repr

/-- `Closure::upvalues_count`. -/
def ClosureObj.upvalues_count (c : ClosureObj) : Nat := c.upvalues.length

/-- `Class` (`src/data/class.rs`): name plus the mutable method table
(`RefCell<HashMap<..>>` modeled as an association list). -/
structure ClassObj where
  name : String
  methods : List (String × Value)
deriving Repr

/-- `Instance` (`src/data/class.rs`): class reference plus the mutable
field table. -/
structure InstanceObj where
  cls : Nat
  fields : List (String × Value)
deriving Repr

/-- `BoundMethod` (`src/data/class.rs` lines 36–54): an immutable pair of
receiver value and method closure. -/
structure BoundMethod where
  receiver : Value
  method : Nat
deriving DecidableEq, Repr

/-- `HashMap::insert` on an association list: replace the entry with the
same key, or append a fresh one. -/
def mapInsert (m : List (String × Value)) (k : String) (v : Value) :
    List (String × Value) :=
  match m with
  | [] => [(k, v)]
  | (k', v') :: rest =>
    if k' = k then (k, v) :: rest else (k', v') :: mapInsert rest k v

/-- `HashMap::get` on an association list. -/
def mapGet (m : List (String × Value)) (k : String) : Option Value :=
  match m with
  | [] => none
  | (k', v') :: rest => if k' = k then some v' else mapGet rest k

/-- `HashMap::contains_key` on an association list. -/
def mapContains (m : List (String × Value)) (k : String) : Bool :=
  (mapGet m k).isSome

/-! ## Machine errors (`src/backend/mod.rs`) -/

/-- `MachineError`: message text plus the optional source line. -/
structure MachineError where
  text : String
  line_number : Option Nat
deriving DecidableEq, Repr

/-- `MachineError::with_str`. -/
def MachineError.with_str (msg : String) : MachineError :=
  { text := msg, line_number := none }

/-! ## Call frames (`src/backend/call_frame.rs`) -/

/-- `CallFrame`: invoked closure (by value — closures are immutable once
wrapped in `Rc`), instruction pointer, and the stack index where this
call's slots begin. -/
structure CallFrame where
  closure : ClosureObj
  ip : Nat
  frame_start : Nat
deriving Repr

/-- `CallFrame::new`. -/
def CallFrame.new (closure : ClosureObj) (frame_start : Nat) : CallFrame :=
  { closure := closure, ip := 0, frame_start := frame_start }

/-- `CallFrame::chunk`. -/
def CallFrame.chunk (f : CallFrame) : Chunk := f.closure.func.chunk

/-! ## The virtual machine (`src/backend/machine.rs`) -/

def UINT8_COUNT : Nat := 256

def FRAMES_MAX : Nat := 64

def STACK_MAX_SIZE : Nat := FRAMES_MAX * UINT8_COUNT

/-- A registered native function (`NativeFn`): modeled as a Lean function
on argument lists. -/
def NativeFn : Type := List Value → Value

/-- The `Machine` state: call-frame stack, value stack (index 0 is the
bottom, matching `Vec`), globals map, the open-upvalue list (front =
`LinkedList` head, ordered by decreasing stack index), and the heaps that
stand for the `Rc`-shared objects. `output` records the values sent to the
`BackendService` sink by `Print`. -/
structure Machine where
  frames : List CallFrame
  stack : List Value
  globals : List (String × Value)
  open_upvalues : List Nat
  upvalue_heap : List Upvalue
  funcs : List Func
  closures : List ClosureObj
  classes : List ClassObj
  instances : List InstanceObj
  bounds : List BoundMethod
  natives : List NativeFn
  output : List Value

/-- `bytes_to_word`. Modelled from the spec: `src/utils.rs` does not
contain it, and §4.2 fixes jump operands as "2B big-endian offset", so the
first operand byte is the high byte. -/
def bytes_to_word (first second : Nat) : Nat := 256 * first + second

/-- `word_to_bytes`. Modelled from the spec: the big-endian inverse of
`bytes_to_word`, truncating to 16 bits as a `(u8, u8)` split does. -/
def word_to_bytes (w : Nat) : Nat × Nat := (w / 256 % 256, w % 256)

/-- Rust `vec[i] = v`: in-bounds assignment; out of bounds the source
panics, modeled as an explicit `Model(panic)` error. -/
def vecSet (l : List Value) (i : Nat) (v : Value) :
    Except MachineError (List Value) :=
  if i < l.length then .ok (l.set i v)
  else .error (.with_str "Model(panic): index out of bounds")

/-- Rust `vec[i]` read; out of bounds the source panics, modeled as an
explicit `Model(panic)` error. -/
def vecGet (l : List Value) (i : Nat) : Except MachineError Value :=
  match l.get? i with
  | some v => .ok v
  | none => .error (.with_str "Model(panic): index out of bounds")

/-- `Machine::runtime_error`: attach the current frame's source line
(the byte just consumed, `ip − 1`) when a frame exists. -/
def Machine.runtime_error (m : Machine) (message : String) : MachineError :=
  let line_number :=
    match m.frames.getLast? with
    | some frame => frame.chunk.line_number (frame.ip - 1)
    | none => none
  { text := message, line_number := line_number }

/-- `Machine::frame`: the innermost call frame. -/
def Machine.frame (m : Machine) : Except MachineError CallFrame :=
  match m.frames.getLast? with
  | none => .error (.with_str "Bug: empty call frame")
  | some f => .ok f

/-- `Machine::frame_mut` uses: apply an update to the innermost frame. -/
def Machine.update_frame (m : Machine) (g : CallFrame → CallFrame) :
    Except MachineError Machine :=
  match m.frames.getLast? with
  | none => .error (.with_str "Bug: empty call frame")
  | some f => .ok { m with frames := m.frames.dropLast ++ [g f] }

/-- `Machine::stack_push`: reject a push once the fixed stack capacity is
reached. -/
def Machine.stack_push (m : Machine) (value : Value) :
    Except MachineError Machine :=
  if m.stack.length ≥ STACK_MAX_SIZE then
    .error (m.runtime_error "Stack overflow")
  else .ok { m with stack := m.stack ++ [value] }

/-- `Machine::stack_pop`. -/
def Machine.stack_pop (m : Machine) : Except MachineError (Value × Machine) :=
  match m.stack.getLast? with
  | none => .error (m.runtime_error "Pop on empty stack")
  | some v => .ok (v, { m with stack := m.stack.dropLast })

/-- `Machine::stack_peek_at`: read `rev_index` slots below the top without
popping. -/
def Machine.stack_peek_at (m : Machine) (rev_index : Nat) :
    Except MachineError Value :=
  let len := m.stack.length
  if rev_index ≥ len then
    .error (.with_str s!"Bug: trying access stack with invalid index {rev_index}")
  else
    match m.stack.get? (len - rev_index - 1) with
    | some value => .ok value
    | none => .error (.with_str s!"Bug: trying access stack with invalid index {rev_index}")

/-- `Machine::stack_peek`. -/
def Machine.stack_peek (m : Machine) : Except MachineError Value :=
  m.stack_peek_at 0

/-- `Machine::stack_get`. -/
def Machine.stack_get (m : Machine) (index : Nat) : Except MachineError Value :=
  match m.stack.get? index with
  | some v => .ok v
  | none => .error (.with_str s!"Bug: invalid stack index ({index})")

/-- `Machine::read_const`. -/
def Machine.read_const (m : Machine) (index : Nat) : Except MachineError Value := do
  let f ← m.frame
  match f.chunk.read_const index with
  | none => .error (m.runtime_error "Invalid constant index")
  | some value => .ok value

/-- `Machine::read_const_string`. -/
def Machine.read_const_string (m : Machine) (index : Nat) :
    Except MachineError String := do
  let name ← m.read_const index
  match name.as_text with
  | none => .error (m.runtime_error "Bug: failed to fetch constant")
  | some s => .ok s

end Fox

namespace Fox

/-! ### Jumps (`src/backend/machine.rs`, `impl Machine` "Jumps") -/

/-- `Machine::op_return` (lines 119–135): pop the return value, pop the
frame; if that was the outermost frame pop once more (the script closure)
and stop (`is_alive = false`, the `Bool` in the result); otherwise close
the open upvalues at or above the popped frame's start, truncate the stack
to the frame start and push the return value. Defined below after
`close_upvalues`. -/
def Machine.op_loop (m : Machine) (first second : Nat) :
    Except MachineError Machine :=
  let jump := bytes_to_word first second
  m.update_frame (fun f => { f with ip := f.ip - jump })

/-- `Machine::op_jump`. -/
def Machine.op_jump (m : Machine) (first second : Nat) :
    Except MachineError Machine :=
  let jump := bytes_to_word first second
  m.update_frame (fun f => { f with ip := f.ip + jump })

/-- `Machine::op_jump_if_false` (lines 149–156): peek — never pop — the
condition; advance the instruction pointer by the decoded offset exactly
when it is falsey. -/
def Machine.op_jump_if_false (m : Machine) (first second : Nat) :
    Except MachineError Machine := do
  let jump := bytes_to_word first second
  let condition := (← m.stack_peek).as_bool
  if !condition then
    m.update_frame (fun f => { f with ip := f.ip + jump })
  else
    .ok m

/-! ### Math and logical ops -/

/-- `Machine::op_not`. -/
def Machine.op_not (m : Machine) : Except MachineError Machine := do
  let (value, m) ← m.stack_pop
  m.stack_push (.bool (!value.as_bool))

/-- `Machine::op_negate`. -/
def Machine.op_negate (m : Machine) : Except MachineError Machine := do
  let (value, m) ← m.stack_pop
  match value.as_number with
  | none => .error (m.runtime_error "Operand must be a number")
  | some value => m.stack_push (.number (Double.neg value))

/-- `Machine::op_binary` (lines 174–187): pop `b` then `a`, apply the
operation and push its result directly (`self.stack.push`, bypassing the
capacity check), or map the operation error to a runtime error. -/
def Machine.op_binary (m : Machine)
    (operation : Value → Value → Except OperationError Value) :
    Except MachineError Machine := do
  let (b, m) ← m.stack_pop
  let (a, m) ← m.stack_pop
  match operation a b with
  | .ok value => .ok { m with stack := m.stack ++ [value] }
  | .error .TypeMismatch => .error (m.runtime_error "Invalid/incompatible operands type")
  | .error .DivisionByZero => .error (m.runtime_error "Division by zeros")

/-! ### Function calls -/

/-- `Machine::unchecked_call` (lines 234–238): push a frame whose
`frame_start` points at the callee slot (`top − argc − 1`). -/
def Machine.unchecked_call (m : Machine) (closure : ClosureObj)
    (arg_count : Nat) : Machine :=
  let frame_start := m.stack.length - arg_count - 1
  { m with frames := m.frames ++ [CallFrame.new closure frame_start] }

/-- `Machine::call_closure` (lines 207–218): arity check, then the frame
capacity check (`frames.len() == FRAMES_MAX` ⇒ "Stack overflow"), then the
unchecked frame push. -/
def Machine.call_closure (m : Machine) (callee : ClosureObj)
    (arg_count : Nat) : Except MachineError Machine :=
  let arity := callee.func.arity
  if arg_count ≠ arity then
    .error (m.runtime_error s!"Expected {arity} arguments but got {arg_count}")
  else if m.frames.length = FRAMES_MAX then
    .error (m.runtime_error "Stack overflow")
  else
    .ok (m.unchecked_call callee arg_count)

/-- `Machine::call_native` (lines 220–226): pass the top `argc` values,
truncate them away and push the native's result. -/
def Machine.call_native (m : Machine) (callee : NativeFn) (arg_count : Nat) :
    Except MachineError Machine :=
  let len := m.stack.length
  let args := m.stack.drop (len - arg_count)
  let result := callee args
  let m := { m with stack := m.stack.take (len - arg_count) }
  m.stack_push result

/-- `Machine::define_native`: register a native function as a global. -/
def Machine.define_native (m : Machine) (name : String) (func : NativeFn) :
    Machine :=
  { m with natives := m.natives ++ [func],
           globals := mapInsert m.globals name (.nativeFun m.natives.length) }

/-! ### Classes -/

/-- `Machine::instantiate_class` (lines 294–299): overwrite the callee
stack slot with a fresh `Instance` of the class — and nothing else: the
method table is never consulted, no `init` closure is invoked, and no
argument-count check is made. -/
def Machine.instantiate_class (m : Machine) (callee : Nat) (arg_count : Nat) :
    Except MachineError Machine := do
  let len := m.stack.length
  let instance_id := m.instances.length
  let stack ← vecSet m.stack (len - arg_count - 1) (.instanceRef instance_id)
  .ok { m with
        instances := m.instances ++ [{ cls := callee, fields := [] }],
        stack := stack }

/-- `Machine::call_value` (lines 198–205): dispatch on the callee's
variant. `Closure`, `NativeFun` and `Class` are callable; every other
variant — `Bound` included — falls into the wildcard runtime error. The
heap lookups materialize the `Rc` targets and cannot fail on states built
by the machine itself. -/
def Machine.call_value (m : Machine) (value : Value) (arg_count : Nat) :
    Except MachineError Machine :=
  match value with
  | .closure id =>
    match m.closures.get? id with
    | some callee => m.call_closure callee arg_count
    | none => .error (.with_str "Model: dangling closure id")
  | .nativeFun id =>
    match m.natives.get? id with
    | some callee => m.call_native callee arg_count
    | none => .error (.with_str "Model: dangling native id")
  | .classRef id =>
    match m.classes.get? id with
    | some _ => m.instantiate_class id arg_count
    | none => .error (.with_str "Model: dangling class id")
  | _ => .error (m.runtime_error "Can only call functions and classes")

/-- `Machine::op_call` (lines 192–196): the callee sits `argc` slots below
the top. -/
def Machine.op_call (m : Machine) (arg_count : Nat) :
    Except MachineError Machine := do
  let value ← m.stack_peek_at arg_count
  m.call_value value arg_count

/-! ### Variables -/

/-- `Machine::define_global`. -/
def Machine.define_global (m : Machine) (index : Nat) :
    Except MachineError Machine := do
  let name ← m.read_const_string index
  let (value, m) ← m.stack_pop
  .ok { m with globals := mapInsert m.globals name value }

/-- `Machine::get_global`. -/
def Machine.get_global (m : Machine) (index : Nat) :
    Except MachineError Machine := do
  let name ← m.read_const_string index
  match mapGet m.globals name with
  | none => .error (m.runtime_error s!"Undefined variable {name}")
  | some value => m.stack_push value

/-- `Machine::set_global` (lines 259–268): resolve the name, fail before
touching anything if it is undefined, otherwise peek the value — leaving it
on the stack — and overwrite the map entry. -/
def Machine.set_global (m : Machine) (index : Nat) :
    Except MachineError Machine := do
  let name ← m.read_const_string index
  if !(mapContains m.globals name) then
    .error (m.runtime_error s!"Undefined variable {name}")
  else do
    let value ← m.stack_peek
    .ok { m with globals := mapInsert m.globals name value }

/-- `Machine::relative_to_absolute_slot`. -/
def Machine.relative_to_absolute_slot (m : Machine) (relative_slot : Nat) :
    Except MachineError Nat := do
  let f ← m.frame
  .ok (f.frame_start + relative_slot)

/-- `Machine::op_get_local`. -/
def Machine.op_get_local (m : Machine) (rel_slot : Nat) :
    Except MachineError Machine := do
  let slot ← m.relative_to_absolute_slot rel_slot
  match m.stack.get? slot with
  | none => .error (m.runtime_error "Bug: failed to get local value")
  | some value => m.stack_push value

/-- `Machine::op_set_local`. -/
def Machine.op_set_local (m : Machine) (rel_slot : Nat) :
    Except MachineError Machine := do
  let value ← m.stack_peek
  let slot ← m.relative_to_absolute_slot rel_slot
  let stack ← vecSet m.stack slot value
  .ok { m with stack := stack }

/-! ### Closures and upvalues -/

/-- `extract_stack_index` (lines 581–588): open upvalues must be
stack-allocated. -/
def extract_stack_index (val : Upvalue) : Except MachineError Nat :=
  match val with
  | .Stack stack_idx => .ok stack_idx
  | _ => .error (.with_str "Bug: open upvalues should be stack allocated")

/-- The scan outcome inside `Machine::capture_upvalue`: reuse an existing
cell, insert before position `i`, or append at the back. -/
inductive CaptureScan where
  | found (id : Nat)
  | insertAt (i : Nat)
  | append
deriving DecidableEq, Repr

/-- The `for (i, val) in self.open_upvalues.iter().enumerate()` walk of
`Machine::capture_upvalue` (lines 394–405): skip entries with a larger
stack index, reuse an exact match, and otherwise remember the first
position whose index is smaller. -/
def capture_scan (heap : List Upvalue) (index : Nat) :
    List Nat → Nat → Except MachineError CaptureScan
  | [], _ => .ok .append
  | id :: rest, i => do
    let u ← match heap.get? id with
            | some u => Except.ok u
            | none => Except.error (MachineError.with_str "Model: dangling upvalue id")
    let stack_idx ← extract_stack_index u
    if stack_idx > index then capture_scan heap index rest (i + 1)
    else if stack_idx = index then .ok (.found id)
    else .ok (.insertAt i)

/-- `Machine::capture_upvalue` (lines 391–416): resolve the local slot to
an absolute stack index; reuse the open upvalue for that exact slot if one
exists, otherwise allocate a fresh `Open(slot)` cell and splice it in at
the position that keeps the list sorted by decreasing stack index
(`split_off` / `push_back` / `append`). -/
def Machine.capture_upvalue (m : Machine) (index : Nat) :
    Except MachineError (Nat × Machine) := do
  let f ← m.frame
  let index := f.frame_start + index
  match ← capture_scan m.upvalue_heap index m.open_upvalues 0 with
  | .found id => .ok (id, m)
  | .insertAt p =>
    let id := m.upvalue_heap.length
    .ok (id, { m with
               upvalue_heap := m.upvalue_heap ++ [.Stack index],
               open_upvalues :=
                 m.open_upvalues.take p ++ [id] ++ m.open_upvalues.drop p })
  | .append =>
    let id := m.upvalue_heap.length
    .ok (id, { m with
               upvalue_heap := m.upvalue_heap ++ [.Stack index],
               open_upvalues := m.open_upvalues ++ [id] })

/-- The `loop` of `Machine::close_upvalues` (lines 424–442): pop open
upvalues off the front while their stack index is at least `last`, turning
each cell in place into `Heap(stack[index])`. -/
def close_loop (last : Nat) (stack : List Value) :
    List Nat → List Upvalue → Except MachineError (List Nat × List Upvalue)
  | [], heap => .ok ([], heap)
  | id :: rest, heap => do
    let u ← match heap.get? id with
            | some u => Except.ok u
            | none => Except.error (MachineError.with_str "Model: dangling upvalue id")
    let stack_index ← extract_stack_index u
    if stack_index < last then .ok (id :: rest, heap)
    else do
      let value ← vecGet stack stack_index
      close_loop last stack rest (heap.set id (.Heap value))

/-- `Machine::close_upvalues`. -/
def Machine.close_upvalues (m : Machine) (last : Nat) :
    Except MachineError Machine := do
  let (opens, heap) ← close_loop last m.stack m.open_upvalues m.upvalue_heap
  .ok { m with open_upvalues := opens, upvalue_heap := heap }

/-- `Machine::op_close_upvalue`. -/
def Machine.op_close_upvalue (m : Machine) : Except MachineError Machine := do
  let m ← m.close_upvalues (m.stack.length - 1)
  let (_, m) ← m.stack_pop
  .ok m

/-- `Machine::op_return` (lines 119–135). The returned `Bool` is the
dispatch loop's `is_alive` flag: `false` halts execution. -/
def Machine.op_return (m : Machine) : Except MachineError (Machine × Bool) := do
  let (result, m) ← m.stack_pop
  match m.frames.getLast? with
  | none => .error (.with_str "Bug: return on empty call frame")
  | some frame =>
    let m := { m with frames := m.frames.dropLast }
    if m.frames.isEmpty then do
      let (_, m) ← m.stack_pop
      .ok (m, false)
    else do
      let m ← m.close_upvalues frame.frame_start
      let m := { m with stack := m.stack.take frame.frame_start }
      let m ← m.stack_push result
      .ok (m, true)

/-- The `for i in 0..count` loop of `Machine::op_closure` (lines 375–386):
fetch each upvalue descriptor from the instruction stream; a local
descriptor captures `frame_start + index`, a non-local one copies the
enclosing closure's cell; the resolved cell is assigned into slot `i`. -/
def closure_loop (count : Nat) (i : Nat) (closure : ClosureObj) (m : Machine) :
    Except MachineError (ClosureObj × Machine) :=
  if _h : i < count then do
    let f ← m.frame
    match f.chunk.upvalue_data f.ip with
    | none => .error (.with_str "Bug: missing upvalue")
    | some (data, ip') => do
      let m ← m.update_frame (fun fr => { fr with ip := ip' })
      let (uid, m) ←
        if data.is_local then
          m.capture_upvalue data.index
        else do
          let fr ← m.frame
          match fr.closure.upvalues.get? data.index with
          | some u => Except.ok (u, m)
          | none => Except.error (MachineError.with_str "Model(panic): index out of bounds")
      closure_loop count (i + 1) { closure with upvalues := closure.upvalues.set i uid } m
  else
    .ok (closure, m)
termination_by count - i

/-- `Machine::op_closure` (lines 368–389): read the function constant,
allocate the `upvalue_count` fresh cells of `Closure::new`, resolve each
descriptor via `closure_loop`, register the closure and push it. -/
def Machine.op_closure (m : Machine) (index : Nat) :
    Except MachineError Machine := do
  let val ← m.read_const index
  match val.as_function with
  | none => .error (.with_str "Bug: closure refers to non-function constant")
  | some fid =>
    match m.funcs.get? fid with
    | none => .error (.with_str "Model: dangling function id")
    | some func => do
      let base := m.upvalue_heap.length
      let count := func.upvalue_count
      let m := { m with upvalue_heap := m.upvalue_heap ++ List.replicate count Upvalue.Nil }
      let closure : ClosureObj :=
        { func := func, upvalues := (List.range count).map (fun i => base + i) }
      let (closure, m) ← closure_loop count 0 closure m
      let cid := m.closures.length
      let m := { m with closures := m.closures ++ [closure] }
      m.stack_push (.closure cid)

/-- `Machine::op_get_upvalue` (lines 444–457): read through the current
closure's cell — a stack slot while open, the owned value once closed. -/
def Machine.op_get_upvalue (m : Machine) (index : Nat) :
    Except MachineError Machine := do
  let f ← m.frame
  match f.closure.upvalues.get? index with
  | none => .error (.with_str "Model(panic): index out of bounds")
  | some uid =>
    match m.upvalue_heap.get? uid with
    | none => .error (.with_str "Model: dangling upvalue id")
    | some (.Stack idx) => do
      let value ← m.stack_get idx
      m.stack_push value
    | some (.Heap v) => m.stack_push v
    | some .Nil => .error (.with_str "Bug: get_upvalue got nil")

/-- `Machine::op_set_upvalue` (lines 459–478): peek the value — it stays on
the stack — and write it through the cell. -/
def Machine.op_set_upvalue (m : Machine) (index : Nat) :
    Except MachineError Machine := do
  let f ← m.frame
  match f.closure.upvalues.get? index with
  | none => .error (.with_str "Model(panic): index out of bounds")
  | some uid =>
    match m.upvalue_heap.get? uid with
    | none => .error (.with_str "Model: dangling upvalue id")
    | some (.Stack idx) => do
      let value ← m.stack_peek
      let stack ← vecSet m.stack idx value
      .ok { m with stack := stack }
    | some (.Heap _) => do
      let value ← m.stack_peek
      .ok { m with upvalue_heap := m.upvalue_heap.set uid (.Heap value) }
    | some .Nil => .error (.with_str "Bug: set_upvalue got nil")

/-! ### Remaining stack and misc ops -/

/-- `Machine::op_constant`. -/
def Machine.op_constant (m : Machine) (index : Nat) :
    Except MachineError Machine := do
  let value ← m.read_const index
  m.stack_push value

/-- `Machine::op_duplicate_top`. -/
def Machine.op_duplicate_top (m : Machine) : Except MachineError Machine := do
  let value ← m.stack_peek
  m.stack_push value

/-- `Machine::op_pop`. -/
def Machine.op_pop (m : Machine) : Except MachineError Machine := do
  let (_, m) ← m.stack_pop
  .ok m

/-- `Machine::op_print`: pop the top value and send it to the sink. -/
def Machine.op_print (m : Machine) : Except MachineError Machine := do
  let (value, m) ← m.stack_pop
  .ok { m with output := m.output ++ [value] }

end Fox

namespace Fox

/-! ### Dispatch loop (`Machine::perform`) -/

/-- `Machine::fetch_instruction`: decode at the innermost frame's `ip` and
advance it. -/
def Machine.fetch_instruction (m : Machine) :
    Except FetchError (Instruction × Machine) :=
  match m.frames.getLast? with
  | none => .error (.Other "Bug: empty call frame")
  | some f =>
    match f.chunk.fetch f.ip with
    | .error e => .error e
    | .ok (instr, ip') =>
      .ok (instr, { m with frames := m.frames.dropLast ++ [{ f with ip := ip' }] })

/-- One arm of the `match instr` dispatch in `Machine::perform` (lines
76–111). The `Bool` is the loop's `is_alive` flag (`false` only from
`Return` on the outermost frame). -/
def Machine.execute (m : Machine) : Instruction → Except MachineError (Machine × Bool)
  | .Constant index => do .ok (← m.op_constant index, true)
  | .Equal => do .ok (← m.op_binary Value.equals, true)
  | .Greater => do .ok (← m.op_binary Value.greater, true)
  | .Less => do .ok (← m.op_binary Value.less, true)
  | .Nil => do .ok (← m.stack_push .nil, true)
  | .True => do .ok (← m.stack_push (.bool true), true)
  | .False => do .ok (← m.stack_push (.bool false), true)
  | .Add => do .ok (← m.op_binary Value.add, true)
  | .Subtract => do .ok (← m.op_binary Value.subtract, true)
  | .Multiply => do .ok (← m.op_binary Value.multiply, true)
  | .Divide => do .ok (← m.op_binary Value.divide, true)
  | .Negate => do .ok (← m.op_negate, true)
  | .Not => do .ok (← m.op_not, true)
  | .Print => do .ok (← m.op_print, true)
  | .Return => m.op_return
  | .Pop => do .ok (← m.op_pop, true)
  | .DefineGlobal index => do .ok (← m.define_global index, true)
  | .GetGlobal index => do .ok (← m.get_global index, true)
  | .SetGlobal index => do .ok (← m.set_global index, true)
  | .GetLocal rel_slot => do .ok (← m.op_get_local rel_slot, true)
  | .SetLocal rel_slot => do .ok (← m.op_set_local rel_slot, true)
  | .JumpIfFalse first second => do .ok (← m.op_jump_if_false first second, true)
  | .Jump first second => do .ok (← m.op_jump first second, true)
  | .Loop first second => do .ok (← m.op_loop first second, true)
  | .Duplicate => do .ok (← m.op_duplicate_top, true)
  | .Call arg_count => do .ok (← m.op_call arg_count, true)
  | .Closure index => do .ok (← m.op_closure index, true)

/-- The result of running the dispatch loop: normal termination, a runtime
error, or fuel exhaustion (a modeling artifact — the Rust loop has no
fuel). -/
inductive RunResult where
  | done (m : Machine)
  | err (e : MachineError)
  | fuel (m : Machine)

/-- `Machine::perform` (lines 67–114), with explicit fuel: fetch — where
`FetchError::End` terminates the loop normally and any other fetch error
becomes a runtime error — then execute, stopping when `is_alive` drops. -/
def Machine.perform (m : Machine) : Nat → RunResult
  | 0 => .fuel m
  | fuelLeft + 1 =>
    match m.fetch_instruction with
    | .error .End => .done m
    | .error e => .err (m.runtime_error e.display)
    | .ok (instr, m') =>
      match m'.execute instr with
      | .error e => .err e
      | .ok (m'', true) => m''.perform fuelLeft
      | .ok (m'', false) => .done m''

/-- `Machine::with` (lines 27–44): a fresh machine, natives registered as
globals, the top-level function wrapped in a closure pushed at stack slot 0,
and one frame with `frame_start = 0`. -/
def Machine.with (func : Func) (native : List (String × NativeFn)) : Machine :=
  let base : Machine :=
    { frames := [], stack := [], globals := [], open_upvalues := [],
      upvalue_heap := [], funcs := [], closures := [], classes := [],
      instances := [], bounds := [], natives := [], output := [] }
  let vm := native.foldl (fun vm p => vm.define_native p.1 p.2) base
  let closure : ClosureObj := { func := func, upvalues := [] }
  let vm := { vm with closures := vm.closures ++ [closure] }
  let vm := { vm with stack := vm.stack ++ [Value.closure (vm.closures.length - 1)] }
  vm.unchecked_call closure 0

end Fox

namespace Fox

/-! ## Compiler emission (`src/frontend/assembler.rs`, `src/frontend/compiler.rs`)

The Pratt parser itself (token handling, `advance`/`consume`) is out of
scope; statements are embedded at the emission level, with already-compiled
sub-expression and sub-statement code passed in as byte lists. Errors are
recorded as their message strings; the `panic_mode` flag suppresses
cascading errors exactly as `Assembler::push_error_info` does. -/

/-- `FuncType`. `src/data/func.rs` declares `Script` and `Function`; the
frontend (`Assembler::method`, `Assembler::emit_return`) additionally
requires `Method` and `Initializer`, whose declaration is not present under
`src/` — modelled from that usage and spec §4.3. -/
inductive FuncType where
  | Script
  | Function
  | Method
  | Initializer
deriving DecidableEq, Repr

/-- The emission-relevant compiler state: the chunk under construction,
the recorded error messages, and the cascade-suppression flag. -/
structure EmitState where
  chunk : Chunk
  errors : List String
  panic_mode : Bool

/-- A fresh emission state. -/
def EmitState.new : EmitState :=
  { chunk := Chunk.new, errors := [], panic_mode := false }

/-- `Assembler::push_error_info` / `Assembler::error`: once panicking,
further errors are silenced. -/
def EmitState.push_error (st : EmitState) (message : String) : EmitState :=
  if st.panic_mode then st
  else { st with panic_mode := true, errors := st.errors ++ [message] }

/-- `Compiler::emit_instruction_at_line` (via `Assembler::emit_instruction`):
append the instruction's bytes, returning the offset where it starts. -/
def EmitState.emit (st : EmitState) (instruction : Instruction) (line : Nat) :
    EmitState × Nat :=
  ({ st with chunk := st.chunk.write_buffer instruction.as_vec line },
   st.chunk.size)

/-- Already-compiled sub-expression or sub-statement code, appended where
the parser would recurse (`expression()` / `statement()`). -/
def EmitState.append_code (st : EmitState) (code : List Nat) (line : Nat) :
    EmitState :=
  { st with chunk := st.chunk.write_buffer code line }

/-- `Chunk::patch_u8` iterated, as `Compiler::patch_instruction` does for
each encoded byte. -/
def patch_bytes (code : List Nat) (offset : Nat) : List Nat → List Nat
  | [] => code
  | b :: rest => patch_bytes (code.set offset b) (offset + 1) rest

/-- `Compiler::patch_instruction`. -/
def EmitState.patch_instruction (st : EmitState) (instruction : Instruction)
    (offset : Nat) : EmitState :=
  { st with chunk :=
      { st.chunk with code := patch_bytes st.chunk.code offset instruction.as_vec } }

/-- `Assembler::patch_jump` (lines 845–866): re-fetch the stub at `offset`
to learn its size and kind, compute the forward distance from the byte
after the stub to the current position, diagnose 16-bit overflow, and
overwrite the stub's operand bytes. -/
def EmitState.patch_jump (st : EmitState) (offset : Nat) : EmitState :=
  let fetch_result := st.chunk.fetch offset
  let size := match fetch_result with
    | .ok (instr, _) => instr.size
    | .error _ => 0
  let jump := st.chunk.size - offset - size
  let st := if jump > 65535 then st.push_error "Too much code to jump over" else st
  match fetch_result with
  | .ok (.JumpIfFalse _ _, _) =>
    let (first, second) := word_to_bytes jump
    st.patch_instruction (.JumpIfFalse first second) offset
  | .ok (.Jump _ _, _) =>
    let (first, second) := word_to_bytes jump
    st.patch_instruction (.Jump first second) offset
  | .error e => st.push_error s!"Bug: {e.display}"
  | .ok _ =>
    st.push_error "Bug: Attempt to patch non-jump instruction in 'path_jump' function"

/-- `Assembler::emit_loop` (lines 834–843): a backward jump over
`current − loop_start + 3` bytes. -/
def EmitState.emit_loop (st : EmitState) (loop_start : Nat) (line : Nat) :
    EmitState :=
  let size := (Instruction.Loop 0 0).size
  let offset := st.chunk.size - loop_start + size
  let st := if offset > 65535 then st.push_error "Jump size is too large" else st
  let (f, s) := word_to_bytes offset
  (st.emit (.Loop f s) line).1

/-- `Assembler::emit_return` (lines 813–820): an `Initializer` body returns
`this` (local slot 0), every other function type returns `Nil`. -/
def EmitState.emit_return (st : EmitState) (func_type : FuncType) (line : Nat) :
    EmitState × Nat :=
  let instruction := match func_type with
    | .Initializer => Instruction.GetLocal 0
    | _ => Instruction.Nil
  let (st, _) := st.emit instruction line
  st.emit .Return line

/-- `Assembler::return_statement` (lines 780–792): diagnose a top-level
return; then either emit the implicit return (`return ;`, modeled by
`explicit = none`) or append the compiled value expression followed by
`Return` (`return EXPR ;`, modeled by `explicit = some code`). The only
diagnostic in the source is the `Script` check — there is no
initializer-specific check on the explicit-value path. -/
def return_statement (st : EmitState) (func_type : FuncType)
    (explicit : Option (List Nat)) (line : Nat) : EmitState :=
  let st := match func_type with
    | .Script => st.push_error "Can't return from top-level code"
    | _ => st
  match explicit with
  | none => (st.emit_return func_type line).1
  | some code =>
    let st := st.append_code code line
    (st.emit .Return line).1

/-- One parsed clause of a `switch` body: a `case` with its compiled
comparison expression and compiled body statements, or a `default` with its
compiled body statements. -/
inductive SwitchItem where
  | caseItem (expr_code : List Nat) (body : List Nat)
  | defaultItem (body : List Nat)

/-- `Assembler::switch_branch_statement` (lines 645–656): every branch
body begins with a `Pop` (discarding the switched value), followed by the
branch's statements. -/
def switch_branch_statement (st : EmitState) (body : List Nat) (line : Nat) :
    EmitState :=
  let (st, _) := st.emit .Pop line
  st.append_code body line

/-- The clause loop of `Assembler::switch_statement` (lines 605–635),
threading the accumulated case-exit stubs and the default clause's body
offset. -/
def switch_loop (line : Nat) :
    List SwitchItem → EmitState → List Nat → Option Nat →
    EmitState × List Nat × Option Nat
  | [], st, exit_jumps, default_offset => (st, exit_jumps, default_offset)
  | .caseItem expr body :: rest, st, exit_jumps, default_offset =>
    let (st, _) := st.emit .Duplicate line
    let st := st.append_code expr line
    let (st, _) := st.emit .Equal line
    let (st, next_case) := st.emit .stub_jump_if_false line
    let (st, _) := st.emit .Pop line
    let st := switch_branch_statement st body line
    let (st, exit_jump) := st.emit .stub_jump line
    let st := st.patch_jump next_case
    let (st, _) := st.emit .Pop line
    switch_loop line rest st (exit_jumps ++ [exit_jump]) default_offset
  | .defaultItem body :: rest, st, exit_jumps, default_offset =>
    let st :=
      if default_offset.isSome then
        st.push_error "Multiple default labels in one switch"
      else st
    let (st, default_exit_jump) := st.emit .stub_jump line
    let default_offset := some st.chunk.size
    let st := switch_branch_statement st body line
    let (st, exit_jump) := st.emit .stub_jump line
    let st := st.patch_jump default_exit_jump
    switch_loop line rest st (exit_jumps ++ [exit_jump]) default_offset

/-- `Assembler::switch_statement` (lines 597–643): emit the switched
expression, process the clauses, emit the backward `Loop` into the default
body when one was declared, and patch every case-exit stub to land here.
No instruction is emitted after the clause loop other than that optional
`Loop` — in particular no final `Pop`. -/
def switch_statement (st : EmitState) (switched_expr : List Nat)
    (items : List SwitchItem) (line : Nat) : EmitState :=
  let st := st.append_code switched_expr line
  let (st, exit_jumps, default_offset) := switch_loop line items st [] none
  let st := match default_offset with
    | some offset => st.emit_loop offset line
    | none => st
  exit_jumps.foldl (fun st offset => st.patch_jump offset) st

end Fox

namespace Fox

/-! ## Shared helper lemmas -/

theorem list_get?_append (xs ys : List Nat) (n : Nat) :
    (xs ++ ys).get? (xs.length + n) = ys.get? n := by
  simp [List.get?_eq_getElem?, List.getElem?_append_right]

theorem list_set_append (xs : List Nat) (ys : List Nat) (n : Nat) (v : Nat) :
    (xs ++ ys).set (xs.length + n) v = xs ++ ys.set n v := by
  induction xs with
  | nil => simp
  | cons x xs ih =>
    simp only [List.cons_append, List.length_cons, Nat.succ_add, List.set_cons_succ, ih]

theorem mapGet_mapInsert (g : List (String × Value)) (k : String) (v : Value) :
    mapGet (mapInsert g k v) k = some v := by
  induction g with
  | nil => simp [mapInsert, mapGet]
  | cons p rest ih =>
    by_cases h : p.1 = k
    · simp [mapInsert, mapGet, h]
    · simp [mapInsert, mapGet, h, ih]

/-! ## Claim C7 — value equality -/

/-- C7 counterexample: the claim states equality is reflexive on **every**
`Number` value, but `PartialEq for Value` compares numbers with `f32`
equality, and `NaN ≠ NaN`: the `Equal` instruction on two copies of
`Number(NaN)` yields `Bool(false)`, not `Bool(true)`. (`NaN` is reachable,
e.g. as `(1e38 * 1e38) * 0` under `f32` arithmetic.) -/
theorem C7_nan_not_reflexive :
    Value.eq (.number .nan) (.number .nan) = false ∧
    Value.equals (.number .nan) (.number .nan) = .ok (.bool false) :=
  ⟨rfl, rfl⟩

/-- C7 (amended): value equality is reflexive on `Nil`, every `Bool`, every
`Text`, and every non-NaN `Number` (finite or infinite), while `Fun`,
`NativeFun` and `Closure` values are equal exactly when they are the same
shared object (`Rc::ptr_eq`, i.e. identifier equality in this embedding). -/
theorem C7_equality_by_value_and_identity :
    Value.eq .nil .nil = true ∧
    (∀ b : Bool, Value.eq (.bool b) (.bool b) = true) ∧
    (∀ s : String, Value.eq (.text s) (.text s) = true) ∧
    (∀ q : ℚ, Value.eq (.number (.finite q)) (.number (.finite q)) = true) ∧
    Value.eq (.number .inf) (.number .inf) = true ∧
    Value.eq (.number .negInf) (.number .negInf) = true ∧
    (∀ i j : Nat, Value.eq (.fn i) (.fn j) = decide (i = j)) ∧
    (∀ i j : Nat, Value.eq (.nativeFun i) (.nativeFun j) = decide (i = j)) ∧
    (∀ i j : Nat, Value.eq (.closure i) (.closure j) = decide (i = j)) := by
  refine ⟨rfl, ?_, ?_, ?_, rfl, rfl, ?_, ?_, ?_⟩
  · intro b; cases b <;> rfl
  · intro s; simp [Value.eq]
  · intro q; simp [Value.eq, Double.ieeeEq]
  · intro i j; simp [Value.eq, Nat.beq_eq_true_eq, Bool.beq_eq_decide_eq]
  · intro i j; simp [Value.eq, Bool.beq_eq_decide_eq]
  · intro i j; simp [Value.eq, Bool.beq_eq_decide_eq]

/-! ## Claim C5 — calling a bound method -/

/-- C5: the claim (and the repository's own `calling_methods_test`) expects
a `Call` on a `BoundMethod` to splice the receiver into the callee slot and
invoke the method's closure. The dispatch in `Machine::call_value`
(lines 198–205) has no `Bound` arm, so such a call falls into the wildcard
and fails as a non-callable — for every machine state, bound method and
argument count, unconditionally. -/
theorem C5_bound_method_call_rejected (m : Machine) (id arg_count : Nat) :
    m.call_value (.bound id) arg_count =
      .error (m.runtime_error "Can only call functions and classes") := rfl

/-! ## Claim C4 — return inside an initializer -/

/-- C4 counterexample: inside an initializer, a `return` with an explicit
value expression is **not** a compile error — `return_statement` records no
diagnostic and compiles the expression followed by `Return` (here the
expression is the single `Nil` instruction). The source's only diagnostic
is the top-level (`Script`) check. -/
theorem C4_explicit_init_return_not_an_error :
    (return_statement EmitState.new .Initializer (some [OPCODE_NIL]) 1).errors = [] ∧
    (return_statement EmitState.new .Initializer (some [OPCODE_NIL]) 1).panic_mode = false ∧
    (return_statement EmitState.new .Initializer (some [OPCODE_NIL]) 1).chunk.code =
      [OPCODE_NIL, OPCODE_RETURN] :=
  ⟨rfl, rfl, rfl⟩

/-- C4 (amended): inside a method named `init`, a plain `return;` compiles
to `GetLocal(0)` followed by `Return` (implicitly returning `this`), and a
return with an explicit value expression is accepted without diagnostic,
compiling to the expression's code followed by `Return`. -/
theorem C4_initializer_return_emission (st : EmitState) (code : List Nat)
    (line : Nat) :
    (return_statement st .Initializer none line).chunk.code =
      st.chunk.code ++ [OPCODE_GET_LOCAL, 0, OPCODE_RETURN] ∧
    (return_statement st .Initializer none line).errors = st.errors ∧
    (return_statement st .Initializer (some code) line).chunk.code =
      st.chunk.code ++ code ++ [OPCODE_RETURN] ∧
    (return_statement st .Initializer (some code) line).errors = st.errors := by
  refine ⟨?_, rfl, ?_, rfl⟩
  · simp [return_statement, EmitState.emit_return, EmitState.emit,
      Chunk.write_buffer, Instruction.as_vec]
  · simp [return_statement, EmitState.emit, EmitState.append_code,
      Chunk.write_buffer, Instruction.as_vec]

end Fox

namespace Fox

/-! ## Claim C1 — calling a class never invokes `init` -/

/-- C1: the claim (with the spec and the repository's own
`class_initializer_test`) expects `Call` on a `Class` to invoke the class's
`init` closure when one is defined, and to error when `argc > 0` without
one. `Machine::instantiate_class` (lines 294–299) does neither: for every
class — its method table free to contain `"init"` — and every argument
count, the call succeeds, pushes no frame, raises no error, and only
replaces the callee slot `top − argc − 1` with the fresh instance (the
frames, output, globals and upvalue fields of the result are untouched by
the record update). -/
theorem C1_class_call_never_calls_init (m : Machine) (k argc : Nat)
    (cls : ClassObj) (hk : m.classes.get? k = some cls)
    (hstack : argc + 1 ≤ m.stack.length) :
    m.call_value (.classRef k) argc =
      .ok { m with
            instances := m.instances ++ [{ cls := k, fields := [] }],
            stack := m.stack.set (m.stack.length - argc - 1)
                       (.instanceRef m.instances.length) } := by
  have hlt : m.stack.length - argc - 1 < m.stack.length := by omega
  have hk' : m.classes[k]? = some cls := by
    rw [← List.get?_eq_getElem?]; exact hk
  simp [Machine.call_value, Machine.instantiate_class, vecSet, hlt, hk',
    Bind.bind, Except.bind]

/-- C1 witness fixture: a class that does define `init`, called with one
argument. -/
def exC1_clo : ClosureObj :=
  { func := { arity := 0, chunk := Chunk.new, name := none, upvalue_count := 0 },
    upvalues := [] }

def exC1_class : ClassObj := { name := "C", methods := [("init", .closure 1)] }

def exC1_m : Machine :=
  { frames := [CallFrame.new exC1_clo 0],
    stack := [.closure 0, .classRef 0, .number (.finite 1)],
    globals := [], open_upvalues := [], upvalue_heap := [], funcs := [],
    closures := [exC1_clo, exC1_clo], classes := [exC1_class],
    instances := [], bounds := [], natives := [], output := [] }

theorem C1_class_call_never_calls_init_witness :
    exC1_m.classes.get? 0 = some exC1_class ∧ 1 + 1 ≤ exC1_m.stack.length ∧
    exC1_m.call_value (.classRef 0) 1 =
      .ok { exC1_m with
            instances := exC1_m.instances ++ [{ cls := 0, fields := [] }],
            stack := exC1_m.stack.set (exC1_m.stack.length - 1 - 1)
                       (.instanceRef exC1_m.instances.length) } :=
  ⟨rfl, by decide,
   C1_class_call_never_calls_init exC1_m 0 1 exC1_class rfl (by decide)⟩

/-! ## Claim C8 — frame-stack overflow boundary -/

/-- C8 counterexample fixture: the top-level script frame plus 63 nested
frames — i.e. 63 nested calls have been granted, so by the claim
("64 nested calls execute legally, and only the 65th fails") the next
nested call must succeed. -/
def exC8_clo : ClosureObj :=
  { func := { arity := 0, chunk := Chunk.new, name := none, upvalue_count := 0 },
    upvalues := [] }

def exC8_m : Machine :=
  { frames := CallFrame.new exC8_clo 0 :: List.replicate 63 (CallFrame.new exC8_clo 0),
    stack := [.closure 0], globals := [], open_upvalues := [],
    upvalue_heap := [], funcs := [], closures := [exC8_clo], classes := [],
    instances := [], bounds := [], natives := [], output := [] }

/-- C8 counterexample: with the script frame plus 63 nested frames
(64 total) the very next closure call — the 64th nested call — already
fails with "Stack overflow", because `Machine::call_closure` rejects a call
as soon as `frames.len() == FRAMES_MAX (64)`. The claim's "64 nested calls
execute legally, and only the 65th fails" is therefore false; its
"equivalently" clause (error exactly at 64 frames, script frame included)
is the true half. -/
theorem C8_sixty_fourth_nested_call_fails :
    exC8_m.frames.length = 64 ∧
    exC8_m.call_closure exC8_clo 0 =
      .error (exC8_m.runtime_error "Stack overflow") :=
  ⟨rfl, rfl⟩

/-- C8 (amended): an arity-matching closure call errors with
"Stack overflow" exactly when the frame stack already holds
`FRAMES_MAX = 64` frames, the top-level script frame included in that
count; below that bound the call pushes exactly one frame whose
`frame_start` is `top − argc − 1`. Hence 63 nested calls beyond the
top-level script are legal and the 64th fails. -/
theorem C8_frame_overflow_boundary (m : Machine) (callee : ClosureObj)
    (argc : Nat) (harity : argc = callee.func.arity) :
    (m.frames.length = FRAMES_MAX →
       m.call_closure callee argc = .error (m.runtime_error "Stack overflow")) ∧
    (m.frames.length ≠ FRAMES_MAX →
       m.call_closure callee argc = .ok (m.unchecked_call callee argc) ∧
       (m.unchecked_call callee argc).frames =
         m.frames ++ [CallFrame.new callee (m.stack.length - argc - 1)]) := by
  constructor
  · intro h; simp [Machine.call_closure, harity, h]
  · intro h; simp [Machine.call_closure, harity, h, Machine.unchecked_call]

/-- C8 amended-claim witness: the boundary theorem applied to a machine
holding only the script frame. -/
def exC8_m1 : Machine := { exC8_m with frames := [CallFrame.new exC8_clo 0] }

theorem C8_frame_overflow_boundary_witness :
    0 = exC8_clo.func.arity ∧
    ((exC8_m1.frames.length = FRAMES_MAX →
        exC8_m1.call_closure exC8_clo 0 =
          .error (exC8_m1.runtime_error "Stack overflow")) ∧
     (exC8_m1.frames.length ≠ FRAMES_MAX →
        exC8_m1.call_closure exC8_clo 0 = .ok (exC8_m1.unchecked_call exC8_clo 0) ∧
        (exC8_m1.unchecked_call exC8_clo 0).frames =
          exC8_m1.frames ++ [CallFrame.new exC8_clo (exC8_m1.stack.length - 0 - 1)])) :=
  ⟨rfl, C8_frame_overflow_boundary exC8_m1 exC8_clo 0 rfl⟩

end Fox

namespace Fox

/-! ## Claim C9 — `JumpIfFalse` peeks and only moves the instruction pointer -/

/-- C9: `Machine::op_jump_if_false` reads the condition by peeking — the
value stack (and every other machine component) is identical before and
after — and the only state change is that the innermost frame's
instruction pointer advances by the decoded 16-bit offset, exactly when the
peeked top value is falsey; and the falsey values are precisely `Nil` and
`Bool(false)`. -/
theorem C9_jump_if_false_only_moves_ip (m : Machine) (first second : Nat)
    (f : CallFrame) (v : Value)
    (hf : m.frames.getLast? = some f) (hv : m.stack.getLast? = some v) :
    ∃ m', m.op_jump_if_false first second = .ok m' ∧
      m'.stack = m.stack ∧ m'.globals = m.globals ∧
      m'.open_upvalues = m.open_upvalues ∧ m'.upvalue_heap = m.upvalue_heap ∧
      m'.closures = m.closures ∧ m'.instances = m.instances ∧
      m'.output = m.output ∧
      (v.as_bool = false ↔ (v = .nil ∨ v = .bool false)) ∧
      (v.as_bool = false →
        m'.frames = m.frames.dropLast ++
          [{ f with ip := f.ip + bytes_to_word first second }]) ∧
      (v.as_bool = true → m' = m) := by
  have hne : m.stack ≠ [] := by
    intro he; rw [he] at hv; simp at hv
  have hlen : 0 < m.stack.length := List.length_pos.mpr hne
  have hgl : m.stack[m.stack.length - 1]? = some v := by
    rw [← List.getLast?_eq_getElem?]; exact hv
  have hpeek : m.stack_peek = .ok v := by
    simp [Machine.stack_peek, Machine.stack_peek_at, Nat.not_le.mpr hlen, hgl]
  have hfalsey : v.as_bool = false ↔ (v = .nil ∨ v = .bool false) := by
    cases v <;> simp [Value.as_bool]
  cases hb : v.as_bool with
  | false =>
    refine ⟨{ m with frames := m.frames.dropLast ++
        [{ f with ip := f.ip + bytes_to_word first second }] },
      ?_, rfl, rfl, rfl, rfl, rfl, rfl, rfl, by simpa [hb] using hfalsey,
      fun _ => rfl, fun htrue => absurd htrue (by decide)⟩
    simp [Machine.op_jump_if_false, hpeek, hb, Machine.update_frame, hf,
      Bind.bind, Except.bind]
  | true =>
    refine ⟨m, ?_, rfl, rfl, rfl, rfl, rfl, rfl, rfl, by simpa [hb] using hfalsey,
      fun hfalse => absurd hfalse (by decide), fun _ => rfl⟩
    simp [Machine.op_jump_if_false, hpeek, hb, Bind.bind, Except.bind]

/-- C9 witness fixture: a one-frame machine with `Nil` on top. -/
def exC9_clo : ClosureObj :=
  { func := { arity := 0, chunk := Chunk.new, name := none, upvalue_count := 0 },
    upvalues := [] }

def exC9_f : CallFrame := CallFrame.new exC9_clo 0

def exC9_m : Machine :=
  { frames := [exC9_f], stack := [.closure 0, .nil],
    globals := [], open_upvalues := [], upvalue_heap := [], funcs := [],
    closures := [exC9_clo], classes := [], instances := [], bounds := [],
    natives := [], output := [] }

theorem C9_jump_if_false_only_moves_ip_witness :
    exC9_m.frames.getLast? = some exC9_f ∧
    exC9_m.stack.getLast? = some Value.nil ∧
    (∃ m', exC9_m.op_jump_if_false 1 2 = .ok m' ∧
      m'.stack = exC9_m.stack ∧ m'.globals = exC9_m.globals ∧
      m'.open_upvalues = exC9_m.open_upvalues ∧
      m'.upvalue_heap = exC9_m.upvalue_heap ∧
      m'.closures = exC9_m.closures ∧ m'.instances = exC9_m.instances ∧
      m'.output = exC9_m.output ∧
      (Value.nil.as_bool = false ↔ (Value.nil = .nil ∨ Value.nil = .bool false)) ∧
      (Value.nil.as_bool = false →
        m'.frames = exC9_m.frames.dropLast ++
          [{ exC9_f with ip := exC9_f.ip + bytes_to_word 1 2 }]) ∧
      (Value.nil.as_bool = true → m' = exC9_m)) :=
  ⟨rfl, rfl, C9_jump_if_false_only_moves_ip exC9_m 1 2 exC9_f .nil rfl rfl⟩

/-! ## Claim C10 — `SetGlobal` -/

/-- C10: `Machine::set_global` resolves the name first; on an undefined
name it errors before touching anything (the error arm constructs no new
state, mirroring the source's check-before-mutate order), and on a defined
name it peeks the assigned value — the stack field of the result is
literally the input stack — and overwrites the map entry, which afterwards
resolves to that value. -/
theorem C10_set_global_peeks_and_is_atomic (m : Machine) (index : Nat)
    (f : CallFrame) (name : String)
    (hf : m.frames.getLast? = some f)
    (hc : f.chunk.read_const index = some (.text name)) :
    (mapContains m.globals name = false →
       m.set_global index =
         .error (m.runtime_error s!"Undefined variable {name}")) ∧
    (mapContains m.globals name = true →
       ∀ v, m.stack.getLast? = some v →
         m.set_global index =
           .ok { m with globals := mapInsert m.globals name v } ∧
         mapGet (mapInsert m.globals name v) name = some v) := by
  have hframe : m.frame = .ok f := by simp [Machine.frame, hf]
  have hconst : m.read_const_string index = .ok name := by
    simp [Machine.read_const_string, Machine.read_const, hframe, hc,
      Bind.bind, Except.bind, Value.as_text]
  constructor
  · intro h
    simp [Machine.set_global, hconst, h, Bind.bind, Except.bind]
  · intro h v hv
    have hne : m.stack ≠ [] := by
      intro he; rw [he] at hv; simp at hv
    have hlen : 0 < m.stack.length := List.length_pos.mpr hne
    have hgl : m.stack[m.stack.length - 1]? = some v := by
      rw [← List.getLast?_eq_getElem?]; exact hv
    have hpeek : m.stack_peek = .ok v := by
      simp [Machine.stack_peek, Machine.stack_peek_at, Nat.not_le.mpr hlen, hgl]
    refine ⟨?_, mapGet_mapInsert _ _ _⟩
    simp [Machine.set_global, hconst, h, hpeek, Bind.bind, Except.bind]

/-- C10 witness fixture: constant 0 names the defined global `"x"`, and the
value `7` sits on top of the stack. -/
def exC10_chunk : Chunk := { code := [], constants := [.text "x"], line := [] }

def exC10_clo : ClosureObj :=
  { func := { arity := 0, chunk := exC10_chunk, name := none, upvalue_count := 0 },
    upvalues := [] }

def exC10_f : CallFrame := CallFrame.new exC10_clo 0

def exC10_m : Machine :=
  { frames := [exC10_f], stack := [.closure 0, .number (.finite 7)],
    globals := [("x", .nil)], open_upvalues := [], upvalue_heap := [],
    funcs := [], closures := [exC10_clo], classes := [], instances := [],
    bounds := [], natives := [], output := [] }

theorem C10_set_global_peeks_and_is_atomic_witness :
    exC10_m.frames.getLast? = some exC10_f ∧
    exC10_f.chunk.read_const 0 = some (.text "x") ∧
    ((mapContains exC10_m.globals "x" = false →
        exC10_m.set_global 0 =
          .error (exC10_m.runtime_error "Undefined variable x")) ∧
     (mapContains exC10_m.globals "x" = true →
        ∀ v, exC10_m.stack.getLast? = some v →
          exC10_m.set_global 0 =
            .ok { exC10_m with globals := mapInsert exC10_m.globals "x" v } ∧
          mapGet (mapInsert exC10_m.globals "x" v) "x" = some v)) :=
  ⟨rfl, rfl, C10_set_global_peeks_and_is_atomic exC10_m 0 exC10_f "x" rfl rfl⟩

end Fox



namespace Fox

/-- The open-upvalue list's stack indices, defined when every listed cell
exists and is open. -/
def open_stack_indices (heap : List Upvalue) : List Nat → Option (List Nat)
  | [] => some []
  | id :: rest =>
    match heap[id]? with
    | some (.Stack idx) => (open_stack_indices heap rest).map (fun l => idx :: l)
    | _ => none

/-- Reading the open-upvalue indices only depends on the cells the list
names. -/
theorem open_stack_indices_congr (heap heap2 : List Upvalue) :
    ∀ (opens : List Nat),
    (∀ j ∈ opens, heap2[j]? = heap[j]?) →
    open_stack_indices heap2 opens = open_stack_indices heap opens := by
  intro opens
  induction opens with
  | nil => intro _; rfl
  | cons id rest ih =>
    intro h
    have hid : heap2[id]? = heap[id]? := h id (List.mem_cons_self _ _)
    have hrest := ih (fun j hj => h j (List.mem_cons_of_mem _ hj))
    simp only [open_stack_indices, hid, hrest]

/-- The index list is as long as the open-upvalue list. -/
theorem open_stack_indices_length (heap : List Upvalue) :
    ∀ (opens : List Nat) (idxs : List Nat),
    open_stack_indices heap opens = some idxs → idxs.length = opens.length := by
  intro opens
  induction opens with
  | nil =>
    intro idxs h
    have : idxs = [] := by simpa [open_stack_indices, eq_comm] using h
    simp [this]
  | cons id rest ih =>
    intro idxs h
    simp only [open_stack_indices] at h
    cases hid : heap[id]? with
    | none => rw [hid] at h; simp at h
    | some u =>
      cases u with
      | Stack idx =>
        rw [hid] at h
        simp only [Option.map_eq_some'] at h
        obtain ⟨tl, htl, rfl⟩ := h
        simp [ih tl htl]
      | Heap v => rw [hid] at h; simp at h
      | Nil => rw [hid] at h; simp at h

/-- Every listed open cell's stack index appears in the index list. -/
theorem open_stack_indices_mem (heap : List Upvalue) :
    ∀ (opens : List Nat) (idxs : List Nat),
    open_stack_indices heap opens = some idxs →
    ∀ id ∈ opens, ∀ idx, heap[id]? = some (.Stack idx) → idx ∈ idxs := by
  intro opens
  induction opens with
  | nil => intro idxs _ id hid; simp at hid
  | cons id0 rest ih =>
    intro idxs h id hid idx hval
    simp only [open_stack_indices] at h
    cases hid0 : heap[id0]? with
    | none => rw [hid0] at h; simp at h
    | some u =>
      cases u with
      | Heap v => rw [hid0] at h; simp at h
      | Nil => rw [hid0] at h; simp at h
      | Stack idx0 =>
        rw [hid0] at h
        simp only [Option.map_eq_some'] at h
        obtain ⟨tl, htl, rfl⟩ := h
        rcases List.mem_cons.mp hid with rfl | hmem
        · rw [hid0] at hval
          injection hval with hval
          injection hval with hval
          simp [hval]
        · exact List.mem_cons_of_mem _ (ih tl htl id hmem idx hval)

/-- Characterization of the loop of `Machine::close_upvalues` under the
machine's list invariant (all listed cells open, indices strictly
decreasing, in stack bounds): exactly the leading entries with stack index
`≥ last` are removed, each such cell is mutated in place to hold the
current stack value at its index, and every other cell is untouched. -/
theorem close_loop_spec (last : Nat) (stack : List Value) :
    ∀ (opens : List Nat) (heap : List Upvalue) (idxs : List Nat),
    open_stack_indices heap opens = some idxs →
    idxs.Chain' (· > ·) →
    (∀ i ∈ idxs, i < stack.length) →
    ∃ heap',
      close_loop last stack opens heap =
        .ok (((opens.zip idxs).filter (fun p => decide (p.2 < last))).map Prod.fst,
          heap') ∧
      heap'.length = heap.length ∧
      (∀ j, j ∉ opens → heap'[j]? = heap[j]?) ∧
      (∀ p ∈ opens.zip idxs,
        (p.2 < last → heap'[p.1]? = heap[p.1]?) ∧
        (last ≤ p.2 → heap'[p.1]? = some (.Heap (stack.getD p.2 .nil)))) := by
  intro opens
  induction opens with
  | nil =>
    intro heap idxs h _ _
    have hidxs : idxs = [] := by
      simpa [open_stack_indices, eq_comm] using h
    subst hidxs
    exact ⟨heap, by simp [close_loop], rfl, fun _ _ => rfl, by simp⟩
  | cons id rest ih =>
    intro heap idxs h hsort hbound
    simp only [open_stack_indices] at h
    cases hid : heap[id]? with
    | none => rw [hid] at h; simp at h
    | some u =>
      cases u with
      | Heap v => rw [hid] at h; simp at h
      | Nil => rw [hid] at h; simp at h
      | Stack idx =>
        rw [hid] at h
        simp only [Option.map_eq_some'] at h
        obtain ⟨idxs', hrest, rfl⟩ := h
        have hpair : (idx :: idxs').Pairwise (· > ·) :=
          List.chain'_iff_pairwise.mp hsort
        have hgt : ∀ y ∈ idxs', idx > y := (List.pairwise_cons.mp hpair).1
        have hsort' : idxs'.Chain' (· > ·) :=
          List.chain'_iff_pairwise.mpr (List.pairwise_cons.mp hpair).2
        have hbound' : ∀ i ∈ idxs', i < stack.length :=
          fun i hi => hbound i (List.mem_cons_of_mem _ hi)
        have hgetid : heap.get? id = some (.Stack idx) := by
          simpa [List.get?_eq_getElem?] using hid
        by_cases hlt : idx < last
        · -- head below threshold: the loop stops immediately, keeps all
          have hall : ∀ p ∈ (id :: rest).zip (idx :: idxs'),
              (fun p : Nat × Nat => decide (p.2 < last)) p = true := by
            intro p hp
            rw [List.zip_cons_cons, List.mem_cons] at hp
            rcases hp with rfl | hpt
            · simpa using hlt
            · have h2 := (List.of_mem_zip hpt).2
              have := hgt p.2 h2
              simp only [decide_eq_true_eq]
              omega
          have hlenr : idxs'.length = rest.length :=
            open_stack_indices_length heap rest idxs' hrest
          refine ⟨heap, ?_, rfl, fun _ _ => rfl, ?_⟩
          · rw [List.filter_eq_self.mpr hall,
              List.map_fst_zip _ _ (by simp [hlenr])]
            simp only [close_loop, hgetid, extract_stack_index,
              Bind.bind, Except.bind]
            rw [if_pos hlt]
          · intro p hp
            refine ⟨fun _ => rfl, fun hge => ?_⟩
            rw [List.zip_cons_cons, List.mem_cons] at hp
            rcases hp with rfl | hpt
            · omega
            · have := hgt p.2 (List.of_mem_zip hpt).2
              omega
        · -- head at or above threshold: close it and continue
          have hidlen : id < heap.length := by
            by_contra hge
            rw [List.getElem?_eq_none (by omega)] at hid
            exact Option.noConfusion hid
          have hstackv : ∃ v, stack.get? idx = some v ∧ v = stack.getD idx .nil := by
            have hb : idx < stack.length := hbound idx (List.mem_cons_self _ _)
            refine ⟨stack[idx], ?_, ?_⟩
            · simp [List.get?_eq_getElem?, List.getElem?_eq_getElem hb]
            · simp [List.getD_eq_getElem?_getD, List.getElem?_eq_getElem hb]
          obtain ⟨v, hv, hvD⟩ := hstackv
          have hidnotin : id ∉ rest := by
            intro hmem
            have : idx ∈ idxs' :=
              open_stack_indices_mem heap rest idxs' hrest id hmem idx hid
            exact absurd (hgt idx this) (by omega)
          have hcong : open_stack_indices (heap.set id (.Heap v)) rest = some idxs' := by
            rw [open_stack_indices_congr heap (heap.set id (.Heap v)) rest ?hne]
            · exact hrest
            case hne =>
              intro j hj
              have : j ≠ id := fun he => hidnotin (he ▸ hj)
              simp [List.getElem?_set_ne (by omega : id ≠ j)]
          obtain ⟨heap', hrun, hlen, hout, hin⟩ :=
            ih (heap.set id (.Heap v)) idxs' hcong hsort' hbound'
          refine ⟨heap', ?_, by simpa using hlen, ?_, ?_⟩
          · simp only [close_loop, hgetid, extract_stack_index,
              Bind.bind, Except.bind]
            rw [if_neg hlt]
            simp only [vecGet, hv]
            rw [hrun]
            congr 1
            rw [List.zip_cons_cons]
            simp [List.filter_cons, hlt]
          · intro j hj
            have hj1 : j ∉ rest := fun hc => hj (List.mem_cons_of_mem _ hc)
            have hj2 : j ≠ id := fun he => hj (he ▸ List.mem_cons_self _ _)
            rw [hout j hj1]
            simp [List.getElem?_set_ne (fun he => hj2 he.symm)]
          · intro p hp
            rw [List.zip_cons_cons, List.mem_cons] at hp
            rcases hp with rfl | hpt
            · refine ⟨fun hc => absurd hc hlt, fun _ => ?_⟩
              rw [hout id hidnotin]
              rw [hvD] at *
              simp [List.getElem?_set_self, hidlen]
            · have hp1 : p.1 ∈ rest := (List.of_mem_zip hpt).1
              have hp1ne : p.1 ≠ id := fun he => hidnotin (he ▸ hp1)
              refine ⟨fun hc => ?_, fun hge => (hin p hpt).2 hge⟩
              rw [(hin p hpt).1 hc]
              simp [List.getElem?_set_ne (fun he => hp1ne he.symm)]


/-- C3: on `Return` with a calling frame remaining, the return value is
popped, the frame is popped, every open upvalue whose stack index is at or
above the popped frame's `frame_start` is closed over the then-current
stack value, the stack is truncated to `frame_start`, and the return value
is pushed — so the stack length becomes `frame_start + 1`; open upvalues
below `frame_start` stay open and untouched. When the popped frame is the
outermost one, execution instead halts (`is_alive = false`) after popping
the script closure. -/
theorem C3_return_frame_discipline (m : Machine) (frame : CallFrame)
    (result : Value) (idxs : List Nat)
    (hf : m.frames.getLast? = some frame)
    (hv : m.stack.getLast? = some result)
    (hlen2 : 2 ≤ m.frames.length)
    (hidx : open_stack_indices m.upvalue_heap m.open_upvalues = some idxs)
    (hsort : idxs.Chain' (· > ·))
    (hbound : ∀ i ∈ idxs, i < m.stack.length - 1)
    (hfs : frame.frame_start ≤ m.stack.length - 1)
    (hcap : m.stack.length ≤ STACK_MAX_SIZE) :
    (∃ heap',
      m.op_return = .ok ({ m with
          frames := m.frames.dropLast,
          stack := (m.stack.dropLast.take frame.frame_start) ++ [result],
          open_upvalues := ((m.open_upvalues.zip idxs).filter
              (fun p => decide (p.2 < frame.frame_start))).map Prod.fst,
          upvalue_heap := heap' }, true) ∧
      ((m.stack.dropLast.take frame.frame_start) ++ [result]).length
          = frame.frame_start + 1 ∧
      (∀ p ∈ m.open_upvalues.zip idxs,
        (frame.frame_start ≤ p.2 →
           heap'[p.1]? = some (.Heap (m.stack.dropLast.getD p.2 .nil))) ∧
        (p.2 < frame.frame_start → heap'[p.1]? = m.upvalue_heap[p.1]?))) ∧
    (∀ (m0 : Machine) (res w : Value),
      m0.frames.length = 1 →
      m0.stack.getLast? = some res →
      m0.stack.dropLast.getLast? = some w →
      m0.op_return =
        .ok ({ m0 with frames := m0.frames.dropLast,
                       stack := m0.stack.dropLast.dropLast }, false)) := by
  constructor
  · have hnes : m.stack ≠ [] := by intro he; rw [he] at hv; simp at hv
    have hslen : 0 < m.stack.length := List.length_pos.mpr hnes
    have hpop : m.stack_pop = .ok (result, { m with stack := m.stack.dropLast }) := by
      simp [Machine.stack_pop, hv]
    have hdll : m.stack.dropLast.length = m.stack.length - 1 :=
      List.length_dropLast _
    have hbound' : ∀ i ∈ idxs, i < m.stack.dropLast.length := by
      intro i hi; rw [hdll]; exact hbound i hi
    obtain ⟨heap', hrun, hlen, hout, hin⟩ :=
      close_loop_spec frame.frame_start m.stack.dropLast m.open_upvalues
        m.upvalue_heap idxs hidx hsort hbound'
    have hne2 : (m.frames.dropLast).isEmpty = false := by
      have hgt : 0 < m.frames.dropLast.length := by
        rw [List.length_dropLast]; omega
      cases hdd : m.frames.dropLast with
      | nil => rw [hdd] at hgt; simp at hgt
      | cons a l => rfl
    have htake : (m.stack.dropLast.take frame.frame_start).length
        = frame.frame_start := by
      rw [List.length_take, hdll, Nat.min_eq_left (by omega)]
    have hpushlt : ¬ (m.stack.dropLast.take frame.frame_start).length
        ≥ STACK_MAX_SIZE := by
      rw [htake]
      have : STACK_MAX_SIZE = 16384 := by norm_num [STACK_MAX_SIZE, FRAMES_MAX, UINT8_COUNT]
      omega
    refine ⟨heap', ?_, ?_, ?_⟩
    · simp only [Machine.op_return, hpop, Bind.bind, Except.bind, hf]
      simp only [hne2, Bool.false_eq_true, if_false,
        Machine.close_upvalues, hrun, Machine.stack_push, hpushlt]
      have hmax : STACK_MAX_SIZE = 16384 := by
        norm_num [STACK_MAX_SIZE, FRAMES_MAX, UINT8_COUNT]
      simp only [Bind.bind, Except.bind, List.length_take, hdll]
      rw [if_neg (by omega)]
    · have : (m.stack.dropLast.take frame.frame_start).length = frame.frame_start := by
        rw [List.length_take, hdll, Nat.min_eq_left (by omega)]
      simp [this]
    · intro p hp
      exact ⟨fun hge => (hin p hp).2 hge, fun hlt => (hin p hp).1 hlt⟩
  · intro m0 res w hlen1 hres hw
    have hpop : m0.stack_pop = .ok (res, { m0 with stack := m0.stack.dropLast }) := by
      simp [Machine.stack_pop, hres]
    obtain ⟨f0, hf0⟩ : ∃ f0, m0.frames.getLast? = some f0 := by
      cases hg : m0.frames.getLast? with
      | some f0 => exact ⟨f0, rfl⟩
      | none =>
        rw [List.getLast?_eq_none_iff] at hg
        rw [hg] at hlen1; simp at hlen1
    have hemp : m0.frames.dropLast = [] := by
      have h0 : m0.frames.dropLast.length = 0 := by
        rw [List.length_dropLast, hlen1]
      exact List.length_eq_zero.mp h0
    have hpop2 : ({ m0 with frames := [], stack := m0.stack.dropLast } :
        Machine).stack_pop = .ok (w,
          { m0 with frames := [], stack := m0.stack.dropLast.dropLast }) := by
      simp [Machine.stack_pop, hw]
    simp only [Machine.op_return, hpop, Bind.bind, Except.bind, hf0]
    simp only [hemp, List.isEmpty_nil, if_true, hpop2]


/-- C3 witness fixture: two frames (`frame_start = 2` for the inner one),
a six-slot stack, and three open upvalues at stack indices 4, 3, 1. -/
def exC3_clo : ClosureObj :=
  { func := { arity := 0, chunk := Chunk.new, name := none, upvalue_count := 0 },
    upvalues := [] }

def exC3_f : CallFrame := CallFrame.new exC3_clo 2

def exC3_m : Machine :=
  { frames := [CallFrame.new exC3_clo 0, exC3_f],
    stack := [.closure 0, .number (.finite 10), .closure 1,
              .number (.finite 20), .number (.finite 30), .number (.finite 99)],
    globals := [], open_upvalues := [0, 1, 2],
    upvalue_heap := [.Stack 4, .Stack 3, .Stack 1],
    funcs := [], closures := [exC3_clo, exC3_clo], classes := [],
    instances := [], bounds := [], natives := [], output := [] }

theorem C3_return_frame_discipline_witness :
    exC3_m.frames.getLast? = some exC3_f ∧
    exC3_m.stack.getLast? = some (.number (.finite 99)) ∧
    2 ≤ exC3_m.frames.length ∧
    open_stack_indices exC3_m.upvalue_heap exC3_m.open_upvalues = some [4, 3, 1] ∧
    ([4, 3, 1] : List Nat).Chain' (· > ·) ∧
    (∀ i ∈ ([4, 3, 1] : List Nat), i < exC3_m.stack.length - 1) ∧
    exC3_f.frame_start ≤ exC3_m.stack.length - 1 ∧
    exC3_m.stack.length ≤ STACK_MAX_SIZE ∧
    ((∃ heap',
      exC3_m.op_return = .ok ({ exC3_m with
          frames := exC3_m.frames.dropLast,
          stack := (exC3_m.stack.dropLast.take exC3_f.frame_start) ++
            [.number (.finite 99)],
          open_upvalues := ((exC3_m.open_upvalues.zip [4, 3, 1]).filter
              (fun p => decide (p.2 < exC3_f.frame_start))).map Prod.fst,
          upvalue_heap := heap' }, true) ∧
      ((exC3_m.stack.dropLast.take exC3_f.frame_start) ++
          [Value.number (.finite 99)]).length = exC3_f.frame_start + 1 ∧
      (∀ p ∈ exC3_m.open_upvalues.zip [4, 3, 1],
        (exC3_f.frame_start ≤ p.2 →
           heap'[p.1]? = some (.Heap (exC3_m.stack.dropLast.getD p.2 .nil))) ∧
        (p.2 < exC3_f.frame_start →
           heap'[p.1]? = exC3_m.upvalue_heap[p.1]?))) ∧
     (∀ (m0 : Machine) (res w : Value),
       m0.frames.length = 1 →
       m0.stack.getLast? = some res →
       m0.stack.dropLast.getLast? = some w →
       m0.op_return =
         .ok ({ m0 with frames := m0.frames.dropLast,
                        stack := m0.stack.dropLast.dropLast }, false))) :=
  ⟨rfl, rfl, by decide, rfl, by simp [List.chain'_cons], by decide, by decide,
   by decide,
   C3_return_frame_discipline exC3_m exC3_f (.number (.finite 99)) [4, 3, 1]
     rfl rfl (by decide) rfl (by simp [List.chain'_cons]) (by decide)
     (by decide) (by decide)⟩

end Fox


namespace Fox

/-- The scan of `capture_upvalue` finds the (unique) open upvalue whose
stack index is exactly the requested slot, when one exists. -/
theorem capture_scan_found (heap : List Upvalue) (index : Nat) :
    ∀ (opens : List Nat) (idxs : List Nat) (i : Nat),
    open_stack_indices heap opens = some idxs →
    idxs.Chain' (· > ·) →
    index ∈ idxs →
    ∃ id, capture_scan heap index opens i = .ok (.found id) ∧
      id ∈ opens ∧ heap[id]? = some (.Stack index) := by
  intro opens
  induction opens with
  | nil =>
    intro idxs i h _ hmem
    have : idxs = [] := by simpa [open_stack_indices, eq_comm] using h
    subst this; simp at hmem
  | cons id0 rest ih =>
    intro idxs i h hsort hmem
    simp only [open_stack_indices] at h
    cases hid0 : heap[id0]? with
    | none => rw [hid0] at h; simp at h
    | some u =>
      cases u with
      | Heap v => rw [hid0] at h; simp at h
      | Nil => rw [hid0] at h; simp at h
      | Stack idx0 =>
        rw [hid0] at h
        simp only [Option.map_eq_some'] at h
        obtain ⟨idxs', hrest, rfl⟩ := h
        have hpair := List.chain'_iff_pairwise.mp hsort
        have hgt : ∀ y ∈ idxs', idx0 > y := (List.pairwise_cons.mp hpair).1
        have hsort' : idxs'.Chain' (· > ·) :=
          List.chain'_iff_pairwise.mpr (List.pairwise_cons.mp hpair).2
        have hget0 : heap.get? id0 = some (.Stack idx0) := by
          simpa [List.get?_eq_getElem?] using hid0
        rcases Nat.lt_trichotomy idx0 index with hlt | heq | hgt0
        · -- idx0 < index: impossible, index would have to be below idx0
          exfalso
          rcases List.mem_cons.mp hmem with rfl | hmem'
          · omega
          · exact absurd (hgt index hmem') (by omega)
        · -- exact match: reuse id0
          subst heq
          refine ⟨id0, ?_, List.mem_cons_self _ _, hid0⟩
          simp only [capture_scan, hget0, extract_stack_index,
            Bind.bind, Except.bind]
          rw [if_neg (by omega)]
          simp
        · -- idx0 > index: skip and continue
          have hmem' : index ∈ idxs' := by
            rcases List.mem_cons.mp hmem with rfl | hmem'
            · omega
            · exact hmem'
          obtain ⟨id, hscan, hidin, hidval⟩ := ih idxs' (i + 1) hrest hsort' hmem'
          refine ⟨id, ?_, List.mem_cons_of_mem _ hidin, hidval⟩
          simp only [capture_scan, hget0, extract_stack_index,
            Bind.bind, Except.bind]
          rw [if_pos hgt0]
          exact hscan

/-- When no open upvalue has the requested slot, the scan reports the
insertion position: everything before it has a larger stack index,
everything from it on a smaller one. -/
theorem capture_scan_missing (heap : List Upvalue) (index : Nat) :
    ∀ (opens : List Nat) (idxs : List Nat) (i : Nat),
    open_stack_indices heap opens = some idxs →
    idxs.Chain' (· > ·) →
    index ∉ idxs →
    ∃ p, p ≤ opens.length ∧
      (∀ q ∈ idxs.take p, index < q) ∧
      (∀ q ∈ idxs.drop p, q < index) ∧
      ((p < opens.length ∧
          capture_scan heap index opens i = .ok (.insertAt (i + p))) ∨
       (p = opens.length ∧ capture_scan heap index opens i = .ok .append)) := by
  intro opens
  induction opens with
  | nil =>
    intro idxs i h _ _
    have : idxs = [] := by simpa [open_stack_indices, eq_comm] using h
    subst this
    exact ⟨0, by simp, by simp, by simp, Or.inr ⟨rfl, rfl⟩⟩
  | cons id0 rest ih =>
    intro idxs i h hsort hmem
    simp only [open_stack_indices] at h
    cases hid0 : heap[id0]? with
    | none => rw [hid0] at h; simp at h
    | some u =>
      cases u with
      | Heap v => rw [hid0] at h; simp at h
      | Nil => rw [hid0] at h; simp at h
      | Stack idx0 =>
        rw [hid0] at h
        simp only [Option.map_eq_some'] at h
        obtain ⟨idxs', hrest, rfl⟩ := h
        have hpair := List.chain'_iff_pairwise.mp hsort
        have hgt : ∀ y ∈ idxs', idx0 > y := (List.pairwise_cons.mp hpair).1
        have hsort' : idxs'.Chain' (· > ·) :=
          List.chain'_iff_pairwise.mpr (List.pairwise_cons.mp hpair).2
        have hget0 : heap.get? id0 = some (.Stack idx0) := by
          simpa [List.get?_eq_getElem?] using hid0
        have hne : idx0 ≠ index := fun he => hmem (he ▸ List.mem_cons_self _ _)
        by_cases hcmp : idx0 > index
        · -- skip, recurse
          have hmem' : index ∉ idxs' := fun hc => hmem (List.mem_cons_of_mem _ hc)
          obtain ⟨p, hp, htke, hdrp, hres⟩ := ih idxs' (i + 1) hrest hsort' hmem'
          refine ⟨p + 1, by simpa using Nat.succ_le_succ hp, ?_, ?_, ?_⟩
          · intro q hq
            rw [List.take_succ_cons] at hq
            rcases List.mem_cons.mp hq with rfl | hq'
            · omega
            · exact htke q hq'
          · intro q hq
            rw [List.drop_succ_cons] at hq
            exact hdrp q hq
          · rcases hres with ⟨hplt, hscan⟩ | ⟨hpeq, hscan⟩
            · refine Or.inl ⟨by simpa using Nat.succ_lt_succ hplt, ?_⟩
              simp only [capture_scan, hget0, extract_stack_index,
                Bind.bind, Except.bind]
              rw [if_pos hcmp]
              have harith : i + (p + 1) = i + 1 + p := by omega
              rw [harith]
              exact hscan
            · refine Or.inr ⟨by simp [hpeq], ?_⟩
              simp only [capture_scan, hget0, extract_stack_index,
                Bind.bind, Except.bind]
              rw [if_pos hcmp]
              exact hscan
        · -- idx0 < index: insert right here
          have hlt0 : idx0 < index := by omega
          refine ⟨0, by simp, by simp, ?_, Or.inl ⟨by simp, ?_⟩⟩
          · intro q hq
            rw [List.drop_zero] at hq
            rcases List.mem_cons.mp hq with rfl | hq'
            · exact hlt0
            · have := hgt q hq'
              omega
          · simp only [capture_scan, hget0, extract_stack_index,
              Bind.bind, Except.bind]
            rw [if_neg (by omega), if_neg hne]
            simp


/-- Appending cells to the heap does not change the indices of an existing
open-upvalue list. -/
theorem osi_heap_append (heap h2 : List Upvalue) :
    ∀ (opens : List Nat) (idxs : List Nat),
    open_stack_indices heap opens = some idxs →
    open_stack_indices (heap ++ h2) opens = some idxs := by
  intro opens
  induction opens with
  | nil =>
    intro idxs h
    have : idxs = [] := by simpa [open_stack_indices, eq_comm] using h
    subst this; rfl
  | cons id0 rest ih =>
    intro idxs h
    simp only [open_stack_indices] at h ⊢
    cases hid0 : heap[id0]? with
    | none => rw [hid0] at h; simp at h
    | some u =>
      cases u with
      | Heap v => rw [hid0] at h; simp at h
      | Nil => rw [hid0] at h; simp at h
      | Stack idx0 =>
        rw [hid0] at h
        simp only [Option.map_eq_some'] at h
        obtain ⟨idxs', hrest, rfl⟩ := h
        have hb : id0 < heap.length := by
          by_contra hge
          rw [List.getElem?_eq_none (by omega)] at hid0
          exact Option.noConfusion hid0
        rw [List.getElem?_append_left hb, hid0, ih idxs' hrest]
        rfl

/-- `open_stack_indices` commutes with `take`. -/
theorem osi_take (heap : List Upvalue) :
    ∀ (opens : List Nat) (idxs : List Nat) (p : Nat),
    open_stack_indices heap opens = some idxs →
    open_stack_indices heap (opens.take p) = some (idxs.take p) := by
  intro opens
  induction opens with
  | nil =>
    intro idxs p h
    have : idxs = [] := by simpa [open_stack_indices, eq_comm] using h
    subst this; simp [open_stack_indices]
  | cons id0 rest ih =>
    intro idxs p h
    simp only [open_stack_indices] at h
    cases hid0 : heap[id0]? with
    | none => rw [hid0] at h; simp at h
    | some u =>
      cases u with
      | Heap v => rw [hid0] at h; simp at h
      | Nil => rw [hid0] at h; simp at h
      | Stack idx0 =>
        rw [hid0] at h
        simp only [Option.map_eq_some'] at h
        obtain ⟨idxs', hrest, rfl⟩ := h
        cases p with
        | zero => simp [open_stack_indices]
        | succ p =>
          rw [List.take_succ_cons, List.take_succ_cons]
          simp only [open_stack_indices, hid0, ih idxs' p hrest]
          rfl

/-- `open_stack_indices` commutes with `drop`. -/
theorem osi_drop (heap : List Upvalue) :
    ∀ (opens : List Nat) (idxs : List Nat) (p : Nat),
    open_stack_indices heap opens = some idxs →
    open_stack_indices heap (opens.drop p) = some (idxs.drop p) := by
  intro opens
  induction opens with
  | nil =>
    intro idxs p h
    have : idxs = [] := by simpa [open_stack_indices, eq_comm] using h
    subst this; simp [open_stack_indices]
  | cons id0 rest ih =>
    intro idxs p h
    simp only [open_stack_indices] at h
    cases hid0 : heap[id0]? with
    | none => rw [hid0] at h; simp at h
    | some u =>
      cases u with
      | Heap v => rw [hid0] at h; simp at h
      | Nil => rw [hid0] at h; simp at h
      | Stack idx0 =>
        rw [hid0] at h
        simp only [Option.map_eq_some'] at h
        obtain ⟨idxs', hrest, rfl⟩ := h
        cases p with
        | zero => simp only [List.drop_zero, open_stack_indices, hid0, hrest]; rfl
        | succ p =>
          rw [List.drop_succ_cons, List.drop_succ_cons]
          exact ih idxs' p hrest

/-- `open_stack_indices` distributes over list append. -/
theorem osi_append2 (heap : List Upvalue) :
    ∀ (l1 l2 : List Nat) (a b : List Nat),
    open_stack_indices heap l1 = some a →
    open_stack_indices heap l2 = some b →
    open_stack_indices heap (l1 ++ l2) = some (a ++ b) := by
  intro l1
  induction l1 with
  | nil =>
    intro l2 a b ha hb
    have : a = [] := by simpa [open_stack_indices, eq_comm] using ha
    subst this; simpa using hb
  | cons id0 rest ih =>
    intro l2 a b ha hb
    simp only [open_stack_indices] at ha
    cases hid0 : heap[id0]? with
    | none => rw [hid0] at ha; simp at ha
    | some u =>
      cases u with
      | Heap v => rw [hid0] at ha; simp at ha
      | Nil => rw [hid0] at ha; simp at ha
      | Stack idx0 =>
        rw [hid0] at ha
        simp only [Option.map_eq_some'] at ha
        obtain ⟨a', hrest, rfl⟩ := ha
        rw [List.cons_append]
        simp only [open_stack_indices, hid0, ih l2 a' b hrest hb]
        rfl

/-- Every listed open-upvalue id is a valid heap index. -/
theorem osi_bounds (heap : List Upvalue) :
    ∀ (opens : List Nat) (idxs : List Nat),
    open_stack_indices heap opens = some idxs →
    ∀ id ∈ opens, id < heap.length := by
  intro opens
  induction opens with
  | nil => intro idxs _ id hid; simp at hid
  | cons id0 rest ih =>
    intro idxs h id hid
    simp only [open_stack_indices] at h
    cases hid0 : heap[id0]? with
    | none => rw [hid0] at h; simp at h
    | some u =>
      cases u with
      | Heap v => rw [hid0] at h; simp at h
      | Nil => rw [hid0] at h; simp at h
      | Stack idx0 =>
        rw [hid0] at h
        simp only [Option.map_eq_some'] at h
        obtain ⟨idxs', hrest, rfl⟩ := h
        rcases List.mem_cons.mp hid with rfl | hmem
        · by_contra hge
          rw [List.getElem?_eq_none (by omega)] at hid0
          exact Option.noConfusion hid0
        · exact ih idxs' hrest id hmem

/-- `Machine::capture_upvalue` when an open upvalue for the slot already
exists: that same shared cell is returned and the machine is unchanged. -/
theorem capture_upvalue_found (m : Machine) (rel : Nat) (f : CallFrame)
    (idxs : List Nat)
    (hf : m.frames.getLast? = some f)
    (hidx : open_stack_indices m.upvalue_heap m.open_upvalues = some idxs)
    (hsort : idxs.Chain' (· > ·))
    (hmem : f.frame_start + rel ∈ idxs) :
    ∃ id, m.capture_upvalue rel = .ok (id, m) ∧ id ∈ m.open_upvalues ∧
      m.upvalue_heap[id]? = some (.Stack (f.frame_start + rel)) := by
  obtain ⟨id, hscan, hin, hval⟩ :=
    capture_scan_found m.upvalue_heap (f.frame_start + rel)
      m.open_upvalues idxs 0 hidx hsort hmem
  refine ⟨id, ?_, hin, hval⟩
  simp only [Machine.capture_upvalue, Machine.frame, hf,
    Bind.bind, Except.bind, hscan]


/-- `Machine::capture_upvalue` when no open upvalue for the slot exists: a
fresh `Open(slot)` cell is allocated and spliced in at the position that
keeps the open-upvalue list sorted by decreasing stack index. -/
theorem capture_upvalue_missing (m : Machine) (rel : Nat) (f : CallFrame)
    (idxs : List Nat)
    (hf : m.frames.getLast? = some f)
    (hidx : open_stack_indices m.upvalue_heap m.open_upvalues = some idxs)
    (hsort : idxs.Chain' (· > ·))
    (hmem : f.frame_start + rel ∉ idxs) :
    ∃ p, p ≤ m.open_upvalues.length ∧
      m.capture_upvalue rel = .ok (m.upvalue_heap.length,
        { m with
          upvalue_heap := m.upvalue_heap ++ [.Stack (f.frame_start + rel)],
          open_upvalues := m.open_upvalues.take p ++
            [m.upvalue_heap.length] ++ m.open_upvalues.drop p }) ∧
      open_stack_indices (m.upvalue_heap ++ [.Stack (f.frame_start + rel)])
          (m.open_upvalues.take p ++ [m.upvalue_heap.length] ++
            m.open_upvalues.drop p)
        = some (idxs.take p ++ [f.frame_start + rel] ++ idxs.drop p) ∧
      (idxs.take p ++ [f.frame_start + rel] ++ idxs.drop p).Chain' (· > ·) := by
  obtain ⟨p, hp, htke, hdrp, hres⟩ :=
    capture_scan_missing m.upvalue_heap (f.frame_start + rel)
      m.open_upvalues idxs 0 hidx hsort hmem
  set slot := f.frame_start + rel with hslot
  set heap2 := m.upvalue_heap ++ [Upvalue.Stack slot] with hheap2
  have hosi2 : open_stack_indices heap2
      (m.open_upvalues.take p ++ [m.upvalue_heap.length] ++
        m.open_upvalues.drop p)
      = some (idxs.take p ++ [slot] ++ idxs.drop p) := by
    have h1 : open_stack_indices heap2 (m.open_upvalues.take p)
        = some (idxs.take p) :=
      osi_heap_append _ _ _ _ (osi_take _ _ _ _ hidx)
    have h3 : open_stack_indices heap2 (m.open_upvalues.drop p)
        = some (idxs.drop p) :=
      osi_heap_append _ _ _ _ (osi_drop _ _ _ _ hidx)
    have h2 : open_stack_indices heap2 [m.upvalue_heap.length] = some [slot] := by
      simp [open_stack_indices, hheap2, List.getElem?_concat_length]
    exact osi_append2 _ _ _ _ _ (osi_append2 _ _ _ _ _ h1 h2) h3
  have hsort2 : (idxs.take p ++ [slot] ++ idxs.drop p).Chain' (· > ·) := by
    rw [List.chain'_iff_pairwise]
    have hpair := List.chain'_iff_pairwise.mp hsort
    have hsplit : idxs = idxs.take p ++ idxs.drop p :=
      (List.take_append_drop p idxs).symm
    have hcross : ∀ a ∈ idxs.take p, ∀ b ∈ idxs.drop p, a > b := by
      have := hsplit ▸ hpair
      exact (List.pairwise_append.mp this).2.2
    rw [List.append_assoc, List.singleton_append, List.pairwise_append]
    refine ⟨hpair.sublist (List.take_sublist _ _), ?_, ?_⟩
    · rw [List.pairwise_cons]
      exact ⟨fun q hq => hdrp q hq,
        hpair.sublist (List.drop_sublist _ _)⟩
    · intro a ha b hb
      rcases List.mem_cons.mp hb with rfl | hb'
      · exact htke a ha
      · exact hcross a ha b hb'
  rcases hres with ⟨hplt, hscan⟩ | ⟨hpeq, hscan⟩
  · refine ⟨p, hp, ?_, hosi2, hsort2⟩
    simp only [Machine.capture_upvalue, Machine.frame, hf,
      Bind.bind, Except.bind, Nat.zero_add] at hscan ⊢
    rw [hscan]
  · refine ⟨p, hp, ?_, hosi2, hsort2⟩
    simp only [Machine.capture_upvalue, Machine.frame, hf,
      Bind.bind, Except.bind] at hscan ⊢
    rw [hscan]
    subst hpeq
    simp [List.take_length, List.drop_length]


/-- C2: upvalue capture for a stack slot (with the open-upvalue list
sorted by strictly decreasing stack index, as the machine maintains):
(1) if an open upvalue for exactly that slot exists, that same shared
cell's id is returned and the machine is unchanged; (2) otherwise a fresh
`Open(slot)` cell is inserted at the position `p` that keeps the list
sorted by decreasing stack index (the resulting index list is again a
strictly decreasing chain); (3) consequently a second capture of the same
slot returns the identical cell id — two closures capturing the same
enclosing local share one cell by identity; and (4) a write through the
shared cell (`SetUpvalue` via one closure) is visible through a read
(`GetUpvalue`) via any other closure holding the same cell id. -/
theorem C2_capture_upvalue_sharing (m : Machine) (rel : Nat) (f : CallFrame)
    (idxs : List Nat)
    (hf : m.frames.getLast? = some f)
    (hidx : open_stack_indices m.upvalue_heap m.open_upvalues = some idxs)
    (hsort : idxs.Chain' (· > ·)) :
    (f.frame_start + rel ∈ idxs →
      ∃ id, m.capture_upvalue rel = .ok (id, m) ∧ id ∈ m.open_upvalues ∧
        m.upvalue_heap[id]? = some (.Stack (f.frame_start + rel))) ∧
    (f.frame_start + rel ∉ idxs →
      ∃ p, p ≤ m.open_upvalues.length ∧
        m.capture_upvalue rel = .ok (m.upvalue_heap.length,
          { m with
            upvalue_heap := m.upvalue_heap ++ [.Stack (f.frame_start + rel)],
            open_upvalues := m.open_upvalues.take p ++
              [m.upvalue_heap.length] ++ m.open_upvalues.drop p }) ∧
        open_stack_indices
            (m.upvalue_heap ++ [.Stack (f.frame_start + rel)])
            (m.open_upvalues.take p ++ [m.upvalue_heap.length] ++
              m.open_upvalues.drop p)
          = some (idxs.take p ++ [f.frame_start + rel] ++ idxs.drop p) ∧
        (idxs.take p ++ [f.frame_start + rel] ++ idxs.drop p).Chain' (· > ·)) ∧
    (f.frame_start + rel ∉ idxs →
      ∃ m', m.capture_upvalue rel = .ok (m.upvalue_heap.length, m') ∧
        m'.capture_upvalue rel = .ok (m.upvalue_heap.length, m')) ∧
    (∀ (mm : Machine) (f1 : CallFrame) (c2 : ClosureObj)
       (ip2 fs2 a b uid idx : Nat) (v : Value),
      mm.frames.getLast? = some f1 →
      f1.closure.upvalues.get? a = some uid →
      c2.upvalues.get? b = some uid →
      mm.upvalue_heap[uid]? = some (.Stack idx) →
      idx < mm.stack.length →
      mm.stack.getLast? = some v →
      mm.stack.length < STACK_MAX_SIZE →
      ∃ mm', mm.op_set_upvalue a = .ok mm' ∧
        mm'.stack = mm.stack.set idx v ∧
        ({ mm' with frames := mm'.frames.dropLast ++
            [CallFrame.mk c2 ip2 fs2] }).op_get_upvalue b =
          .ok { mm' with
                frames := mm'.frames.dropLast ++ [CallFrame.mk c2 ip2 fs2],
                stack := mm'.stack ++ [v] }) := by
  refine ⟨fun hmem => capture_upvalue_found m rel f idxs hf hidx hsort hmem,
    fun hmem => capture_upvalue_missing m rel f idxs hf hidx hsort hmem,
    fun hmem => ?share, ?vis⟩
  case share =>
    obtain ⟨p, hp, hrun, hosi2, hsort2⟩ :=
      capture_upvalue_missing m rel f idxs hf hidx hsort hmem
    refine ⟨_, hrun, ?_⟩
    obtain ⟨id2, hrun2, hin2, hval2⟩ :=
      capture_upvalue_found
        { m with
          upvalue_heap := m.upvalue_heap ++ [.Stack (f.frame_start + rel)],
          open_upvalues := m.open_upvalues.take p ++
            [m.upvalue_heap.length] ++ m.open_upvalues.drop p } rel f
        (idxs.take p ++ [f.frame_start + rel] ++ idxs.drop p)
        hf hosi2 hsort2 (by simp)
    have hid2 : id2 = m.upvalue_heap.length := by
      rcases List.mem_append.mp hin2 with h12 | h3
      · rcases List.mem_append.mp h12 with h1 | h2
        · -- id2 among the old prefix: its index would be slot ∈ idxs
          exfalso
          have hold : id2 ∈ m.open_upvalues := List.take_subset _ _ h1
          have hb : id2 < m.upvalue_heap.length :=
            osi_bounds m.upvalue_heap m.open_upvalues idxs hidx id2 hold
          have : m.upvalue_heap[id2]? = some (.Stack (f.frame_start + rel)) := by
            rw [← List.getElem?_append_left hb]
            exact hval2
          exact hmem (open_stack_indices_mem m.upvalue_heap m.open_upvalues
            idxs hidx id2 hold _ this)
        · simpa using h2
      · exfalso
        have hold : id2 ∈ m.open_upvalues := List.drop_subset _ _ h3
        have hb : id2 < m.upvalue_heap.length :=
          osi_bounds m.upvalue_heap m.open_upvalues idxs hidx id2 hold
        have : m.upvalue_heap[id2]? = some (.Stack (f.frame_start + rel)) := by
          rw [← List.getElem?_append_left hb]
          exact hval2
        exact hmem (open_stack_indices_mem m.upvalue_heap m.open_upvalues
          idxs hidx id2 hold _ this)
    exact hid2 ▸ hrun2
  case vis =>
    intro mm f1 c2 ip2 fs2 a b uid idx v hf1 ha hb hcell hidxlt hv hcap
    have hcell' : mm.upvalue_heap.get? uid = some (.Stack idx) := by
      simpa [List.get?_eq_getElem?] using hcell
    have hnes : mm.stack ≠ [] := by intro he; rw [he] at hv; simp at hv
    have hlen : 0 < mm.stack.length := List.length_pos.mpr hnes
    have hgl : mm.stack[mm.stack.length - 1]? = some v := by
      rw [← List.getLast?_eq_getElem?]; exact hv
    have hpeek : mm.stack_peek = .ok v := by
      simp [Machine.stack_peek, Machine.stack_peek_at, Nat.not_le.mpr hlen, hgl]
    refine ⟨{ mm with stack := mm.stack.set idx v }, ?_, rfl, ?_⟩
    · simp only [Machine.op_set_upvalue, Machine.frame, hf1, ha, hcell',
        Bind.bind, Except.bind, hpeek, vecSet]
      rw [if_pos hidxlt]
    · have hgetv : (mm.stack.set idx v)[idx]? = some v := by
        simp [List.getElem?_set_self, hidxlt]
      simp only [Machine.op_get_upvalue, Machine.frame, List.getLast?_concat,
        hb, hcell', Bind.bind, Except.bind, Machine.stack_get,
        List.get?_eq_getElem?, hgetv, Machine.stack_push, List.length_set]
      rw [if_neg (Nat.not_le.mpr hcap)]

end Fox

namespace Fox

/-- C2 witness fixture: open upvalues for stack slots 5 and 1; capturing
slot 3 must insert between them. -/
def exC2_clo : ClosureObj :=
  { func := { arity := 0, chunk := Chunk.new, name := none, upvalue_count := 0 },
    upvalues := [] }

def exC2_f : CallFrame := CallFrame.new exC2_clo 0

def exC2_m : Machine :=
  { frames := [exC2_f],
    stack := [.closure 0, .number (.finite 1), .number (.finite 2),
              .number (.finite 3), .number (.finite 4), .number (.finite 5),
              .number (.finite 6)],
    globals := [], open_upvalues := [0, 1],
    upvalue_heap := [.Stack 5, .Stack 1],
    funcs := [], closures := [exC2_clo], classes := [], instances := [],
    bounds := [], natives := [], output := [] }

theorem C2_capture_upvalue_sharing_witness :
    exC2_m.frames.getLast? = some exC2_f ∧
    open_stack_indices exC2_m.upvalue_heap exC2_m.open_upvalues
      = some [5, 1] ∧
    ([5, 1] : List Nat).Chain' (· > ·) ∧
    ((exC2_f.frame_start + 3 ∈ ([5, 1] : List Nat) →
      ∃ id, exC2_m.capture_upvalue 3 = .ok (id, exC2_m) ∧
        id ∈ exC2_m.open_upvalues ∧
        exC2_m.upvalue_heap[id]? = some (.Stack (exC2_f.frame_start + 3))) ∧
    (exC2_f.frame_start + 3 ∉ ([5, 1] : List Nat) →
      ∃ p, p ≤ exC2_m.open_upvalues.length ∧
        exC2_m.capture_upvalue 3 = .ok (exC2_m.upvalue_heap.length,
          { exC2_m with
            upvalue_heap := exC2_m.upvalue_heap ++
              [.Stack (exC2_f.frame_start + 3)],
            open_upvalues := exC2_m.open_upvalues.take p ++
              [exC2_m.upvalue_heap.length] ++ exC2_m.open_upvalues.drop p }) ∧
        open_stack_indices
            (exC2_m.upvalue_heap ++ [.Stack (exC2_f.frame_start + 3)])
            (exC2_m.open_upvalues.take p ++ [exC2_m.upvalue_heap.length] ++
              exC2_m.open_upvalues.drop p)
          = some (([5, 1] : List Nat).take p ++ [exC2_f.frame_start + 3] ++
              ([5, 1] : List Nat).drop p) ∧
        (([5, 1] : List Nat).take p ++ [exC2_f.frame_start + 3] ++
          ([5, 1] : List Nat).drop p).Chain' (· > ·)) ∧
    (exC2_f.frame_start + 3 ∉ ([5, 1] : List Nat) →
      ∃ m', exC2_m.capture_upvalue 3 =
          .ok (exC2_m.upvalue_heap.length, m') ∧
        m'.capture_upvalue 3 = .ok (exC2_m.upvalue_heap.length, m')) ∧
    (∀ (mm : Machine) (f1 : CallFrame) (c2 : ClosureObj)
       (ip2 fs2 a b uid idx : Nat) (v : Value),
      mm.frames.getLast? = some f1 →
      f1.closure.upvalues.get? a = some uid →
      c2.upvalues.get? b = some uid →
      mm.upvalue_heap[uid]? = some (.Stack idx) →
      idx < mm.stack.length →
      mm.stack.getLast? = some v →
      mm.stack.length < STACK_MAX_SIZE →
      ∃ mm', mm.op_set_upvalue a = .ok mm' ∧
        mm'.stack = mm.stack.set idx v ∧
        ({ mm' with frames := mm'.frames.dropLast ++
            [CallFrame.mk c2 ip2 fs2] }).op_get_upvalue b =
          .ok { mm' with
                frames := mm'.frames.dropLast ++ [CallFrame.mk c2 ip2 fs2],
                stack := mm'.stack ++ [v] })) :=
  ⟨rfl, rfl, by simp [List.chain'_cons],
   C2_capture_upvalue_sharing exC2_m 3 exC2_f [5, 1] rfl rfl
     (by simp [List.chain'_cons])⟩

end Fox


namespace Fox

/-- `patch_bytes` skips an untouched head element. -/
theorem patch_bytes_cons (x : Nat) :
    ∀ (bs : List Nat) (l : List Nat) (n : Nat),
    patch_bytes (x :: l) (n + 1) bs = x :: patch_bytes l n bs := by
  intro bs
  induction bs with
  | nil => intro l n; rfl
  | cons b rest ih =>
    intro l n
    simp only [patch_bytes, List.set_cons_succ]
    exact ih (l.set n b) (n + 1)

/-- Patching three bytes at the start of the middle segment replaces
exactly that segment. -/
theorem patch3_at (xs : List Nat) :
    ∀ (ys : List Nat) (x1 x2 x3 b1 b2 b3 : Nat),
    patch_bytes (xs ++ [x1, x2, x3] ++ ys) xs.length [b1, b2, b3] =
      xs ++ [b1, b2, b3] ++ ys := by
  induction xs with
  | nil => intro ys x1 x2 x3 b1 b2 b3; rfl
  | cons x xs ih =>
    intro ys x1 x2 x3 b1 b2 b3
    simp only [List.cons_append, List.length_cons, patch_bytes_cons]
    rw [ih]

/-- `consume` at the junction of an append reads the first middle byte. -/
theorem consume_at (xs : List Nat) (v : Nat) (ys : List Nat) :
    consume (xs ++ v :: ys) xs.length = some (v, xs.length + 1) := by
  have h0 : (xs ++ v :: ys).get? (xs.length + 0) = some v := by
    rw [list_get?_append]; rfl
  simp only [Nat.add_zero] at h0
  simp only [consume, h0]

theorem consume_at1 (xs : List Nat) (u v : Nat) (ys : List Nat) :
    consume (xs ++ u :: v :: ys) (xs.length + 1) = some (v, xs.length + 2) := by
  have h0 : (xs ++ u :: v :: ys).get? (xs.length + 1) = some v := by
    rw [list_get?_append]; rfl
  simp only [consume, h0]

theorem consume_at2 (xs : List Nat) (u v w : Nat) (ys : List Nat) :
    consume (xs ++ u :: v :: w :: ys) (xs.length + 2) = some (w, xs.length + 3) := by
  have h0 : (xs ++ u :: v :: w :: ys).get? (xs.length + 2) = some w := by
    rw [list_get?_append]; rfl
  simp only [consume, h0]

/-- Decoding at a `JumpIfFalse` instruction's offset yields it with its
two operand bytes. -/
theorem fetch_jif_at (xs ys : List Nat) (a b : Nat) :
    Instruction.fetch (xs ++ [OPCODE_JUMP_IF_FALSE, a, b] ++ ys) xs.length =
      .ok (.JumpIfFalse a b, xs.length + 3) := by
  have e : xs ++ [OPCODE_JUMP_IF_FALSE, a, b] ++ ys
      = xs ++ OPCODE_JUMP_IF_FALSE :: a :: b :: ys := by simp
  rw [e]
  simp only [Instruction.fetch, consume_at xs OPCODE_JUMP_IF_FALSE (a :: b :: ys),
    consume_at1 xs OPCODE_JUMP_IF_FALSE a (b :: ys),
    consume_at2 xs OPCODE_JUMP_IF_FALSE a b ys]
  norm_num [OPCODE_CONSTANT, OPCODE_EQUAL, OPCODE_GREATER, OPCODE_LESS,
    OPCODE_NEGATE, OPCODE_NIL, OPCODE_TRUE, OPCODE_FALSE, OPCODE_ADD,
    OPCODE_SUBTRACT, OPCODE_MULTIPLY, OPCODE_DIVIDE, OPCODE_NOT,
    OPCODE_PRINT, OPCODE_RETURN, OPCODE_POP, OPCODE_DEFINE_GLOBAL,
    OPCODE_GET_GLOBAL, OPCODE_SET_GLOBAL, OPCODE_GET_LOCAL,
    OPCODE_SET_LOCAL, OPCODE_JUMP_IF_FALSE]

/-- Decoding at a `Jump` instruction's offset yields it with its two
operand bytes. -/
theorem fetch_jump_at (xs ys : List Nat) (a b : Nat) :
    Instruction.fetch (xs ++ [OPCODE_JUMP, a, b] ++ ys) xs.length =
      .ok (.Jump a b, xs.length + 3) := by
  have e : xs ++ [OPCODE_JUMP, a, b] ++ ys
      = xs ++ OPCODE_JUMP :: a :: b :: ys := by simp
  rw [e]
  simp only [Instruction.fetch, consume_at xs OPCODE_JUMP (a :: b :: ys),
    consume_at1 xs OPCODE_JUMP a (b :: ys),
    consume_at2 xs OPCODE_JUMP a b ys]
  norm_num [OPCODE_CONSTANT, OPCODE_EQUAL, OPCODE_GREATER, OPCODE_LESS,
    OPCODE_NEGATE, OPCODE_NIL, OPCODE_TRUE, OPCODE_FALSE, OPCODE_ADD,
    OPCODE_SUBTRACT, OPCODE_MULTIPLY, OPCODE_DIVIDE, OPCODE_NOT,
    OPCODE_PRINT, OPCODE_RETURN, OPCODE_POP, OPCODE_DEFINE_GLOBAL,
    OPCODE_GET_GLOBAL, OPCODE_SET_GLOBAL, OPCODE_GET_LOCAL,
    OPCODE_SET_LOCAL, OPCODE_JUMP_IF_FALSE, OPCODE_JUMP]


/-- `Assembler::patch_jump` on a `JumpIfFalse` stub: the operand bytes
become the big-endian distance to the current end of code; constants and
line table are untouched (and no instruction is appended). -/
theorem patch_jump_jif_code (st : EmitState) (xs ys : List Nat)
    (hcode : st.chunk.code = xs ++ [OPCODE_JUMP_IF_FALSE, 255, 255] ++ ys) :
    (st.patch_jump xs.length).chunk.code =
      xs ++ [OPCODE_JUMP_IF_FALSE, ys.length / 256 % 256, ys.length % 256] ++ ys ∧
    (st.patch_jump xs.length).chunk.constants = st.chunk.constants ∧
    (st.patch_jump xs.length).chunk.line = st.chunk.line := by
  have hfetch : st.chunk.fetch xs.length =
      .ok (.JumpIfFalse 255 255, xs.length + 3) := by
    rw [Chunk.fetch, hcode]; exact fetch_jif_at xs ys 255 255
  have hsize : st.chunk.size = xs.length + 3 + ys.length := by
    rw [Chunk.size, hcode]; simp; omega
  have hjump : st.chunk.size - xs.length - 3 = ys.length := by omega
  have hpatch : patch_bytes st.chunk.code xs.length
      [OPCODE_JUMP_IF_FALSE, ys.length / 256 % 256, ys.length % 256] =
      xs ++ [OPCODE_JUMP_IF_FALSE, ys.length / 256 % 256, ys.length % 256] ++ ys := by
    rw [hcode]; exact patch3_at xs ys _ _ _ _ _ _
  simp only [EmitState.patch_jump, hfetch, Instruction.size, Instruction.as_vec,
    List.length_cons, List.length_nil, hjump, word_to_bytes,
    EmitState.push_error, EmitState.patch_instruction]
  by_cases hov : ys.length > 65535
  · rw [if_pos hov]
    by_cases hpm : st.panic_mode <;>
      simp [hpm, hpatch]
  · rw [if_neg hov]
    simp [hpatch]

/-- `Assembler::patch_jump` on a `Jump` stub. -/
theorem patch_jump_jump_code (st : EmitState) (xs ys : List Nat)
    (hcode : st.chunk.code = xs ++ [OPCODE_JUMP, 255, 255] ++ ys) :
    (st.patch_jump xs.length).chunk.code =
      xs ++ [OPCODE_JUMP, ys.length / 256 % 256, ys.length % 256] ++ ys ∧
    (st.patch_jump xs.length).chunk.constants = st.chunk.constants ∧
    (st.patch_jump xs.length).chunk.line = st.chunk.line := by
  have hfetch : st.chunk.fetch xs.length =
      .ok (.Jump 255 255, xs.length + 3) := by
    rw [Chunk.fetch, hcode]; exact fetch_jump_at xs ys 255 255
  have hsize : st.chunk.size = xs.length + 3 + ys.length := by
    rw [Chunk.size, hcode]; simp; omega
  have hjump : st.chunk.size - xs.length - 3 = ys.length := by omega
  have hpatch : patch_bytes st.chunk.code xs.length
      [OPCODE_JUMP, ys.length / 256 % 256, ys.length % 256] =
      xs ++ [OPCODE_JUMP, ys.length / 256 % 256, ys.length % 256] ++ ys := by
    rw [hcode]; exact patch3_at xs ys _ _ _ _ _ _
  simp only [EmitState.patch_jump, hfetch, Instruction.size, Instruction.as_vec,
    List.length_cons, List.length_nil, hjump, word_to_bytes,
    EmitState.push_error, EmitState.patch_instruction]
  by_cases hov : ys.length > 65535
  · rw [if_pos hov]
    by_cases hpm : st.panic_mode <;>
      simp [hpm, hpatch]
  · rw [if_neg hov]
    simp [hpatch]


/-- The full code emitted for `switch (E) { case e: b }` (one case, no
default): after the case-exit jump is patched, the emitted code ends with
the false-path `Pop` of the comparison result — no final `Pop` discarding
the switched value is appended. The branch path contains the two `Pop`s
(comparison result, then switched value) ahead of the body. -/
theorem switch_one_case_emission (st : EmitState) (E e b : List Nat) (line : Nat) :
    (switch_statement st E [.caseItem e b] line).chunk.code =
      st.chunk.code ++ E ++ [OPCODE_DUPLICATE] ++ e ++ [OPCODE_EQUAL] ++
      [OPCODE_JUMP_IF_FALSE,
        ([OPCODE_POP, OPCODE_POP] ++ b ++ [OPCODE_JUMP, 255, 255]).length / 256 % 256,
        ([OPCODE_POP, OPCODE_POP] ++ b ++ [OPCODE_JUMP, 255, 255]).length % 256] ++
      [OPCODE_POP, OPCODE_POP] ++ b ++ [OPCODE_JUMP, 0, 1] ++ [OPCODE_POP] := by
  simp only [switch_statement, switch_loop, switch_branch_statement,
    EmitState.emit, EmitState.append_code, Chunk.write_buffer, Chunk.size,
    Instruction.stub_jump_if_false, Instruction.stub_jump, Instruction.as_vec,
    List.foldl]
  set A := st.chunk.code ++ E ++ [OPCODE_DUPLICATE] ++ e ++ [OPCODE_EQUAL] with hA
  obtain ⟨h1c, h1k, h1l⟩ :=
    patch_jump_jif_code
      (⟨⟨A ++ [OPCODE_JUMP_IF_FALSE, 255, 255] ++ [OPCODE_POP] ++
          [OPCODE_POP] ++ b ++ [OPCODE_JUMP, 255, 255],
        st.chunk.constants,
        st.chunk.line ++ List.map (fun _ => line) E ++
          List.map (fun _ => line) [OPCODE_DUPLICATE] ++
          List.map (fun _ => line) e ++
          List.map (fun _ => line) [OPCODE_EQUAL] ++
          List.map (fun _ => line) [OPCODE_JUMP_IF_FALSE, 255, 255] ++
          List.map (fun _ => line) [OPCODE_POP] ++
          List.map (fun _ => line) [OPCODE_POP] ++
          List.map (fun _ => line) b ++
          List.map (fun _ => line) [OPCODE_JUMP, 255, 255]⟩,
        st.errors, st.panic_mode⟩)
      A
      ([OPCODE_POP, OPCODE_POP] ++ b ++ [OPCODE_JUMP, 255, 255])
      (by simp [List.append_assoc])
  rw [h1c, h1k, h1l]
  rw [show (A ++ [OPCODE_JUMP_IF_FALSE, 255, 255] ++ [OPCODE_POP] ++
      [OPCODE_POP] ++ b).length =
    (A ++
      [OPCODE_JUMP_IF_FALSE,
        ([OPCODE_POP, OPCODE_POP] ++ b ++ [OPCODE_JUMP, 255, 255]).length / 256 % 256,
        ([OPCODE_POP, OPCODE_POP] ++ b ++ [OPCODE_JUMP, 255, 255]).length % 256] ++
      [OPCODE_POP, OPCODE_POP] ++ b).length from by simp]
  rw [(patch_jump_jump_code _
    (A ++
      [OPCODE_JUMP_IF_FALSE,
        ([OPCODE_POP, OPCODE_POP] ++ b ++ [OPCODE_JUMP, 255, 255]).length / 256 % 256,
        ([OPCODE_POP, OPCODE_POP] ++ b ++ [OPCODE_JUMP, 255, 255]).length % 256] ++
      [OPCODE_POP, OPCODE_POP] ++ b)
    [OPCODE_POP] (by simp [List.append_assoc])).1]
  simp [List.append_assoc]

end Fox

namespace Fox

/-- The final stack depth of a finished run. -/
def run_stack_length : RunResult → Option Nat
  | .done m => some m.stack.length
  | _ => none

/-- C6 fixture: `switch (true) { case false: }` — no case matches, no
default clause. -/
def exC6_st : EmitState :=
  switch_statement EmitState.new Instruction.True.as_vec
    [.caseItem Instruction.False.as_vec []] 1

def exC6_func : Func :=
  { arity := 0, chunk := exC6_st.chunk, name := none, upvalue_count := 0 }

def exC6_m : Machine := Machine.with exC6_func []

/-- C6 counterexample: compiling `switch (true) { case false: }` (no
default) produces code whose last instruction is the false-path `Pop` of
the comparison result — the patched case-exit jump lands *after* it, and no
final `Pop` follows — and executing the program ends with the switched
value still on the stack: depth 2 instead of the initial 1. The claim's
"final Pop … discards the switched value; hence depth unchanged on every
path" is false on the no-match/no-default path. -/
theorem C6_no_match_no_default_leaks :
    exC6_st.errors = [] ∧
    exC6_st.chunk.code =
      [OPCODE_TRUE, OPCODE_DUPLICATE, OPCODE_FALSE, OPCODE_EQUAL,
       OPCODE_JUMP_IF_FALSE, 0, 5, OPCODE_POP, OPCODE_POP,
       OPCODE_JUMP, 0, 1, OPCODE_POP] ∧
    exC6_m.stack.length = 1 ∧
    run_stack_length (exC6_m.perform 100) = some 2 :=
  ⟨rfl, rfl, rfl, rfl⟩

/-- C6 fixture: `switch (true) { case true: }` — the case matches. -/
def exC6b_st : EmitState :=
  switch_statement EmitState.new Instruction.True.as_vec
    [.caseItem Instruction.True.as_vec []] 1

def exC6b_func : Func :=
  { arity := 0, chunk := exC6b_st.chunk, name := none, upvalue_count := 0 }

def exC6b_m : Machine := Machine.with exC6b_func []

/-- C6 fixture: `switch (true) { case false: default: }` — no case
matches but a default clause is present. -/
def exC6c_st : EmitState :=
  switch_statement EmitState.new Instruction.True.as_vec
    [.caseItem Instruction.False.as_vec [], .defaultItem []] 1

def exC6c_func : Func :=
  { arity := 0, chunk := exC6c_st.chunk, name := none, upvalue_count := 0 }

def exC6c_m : Machine := Machine.with exC6c_func []

/-- C6 (amended): after all case-exit jumps are patched no final `Pop` is
emitted; instead each case (and default) branch begins with a `Pop` that
discards the switched value. Consequently a switch whose execution enters
some branch leaves the value-stack depth unchanged — shown for the matched
case and for the default fallback — while a switch where no case matches
and no default clause is present leaves the switched value on the stack
(depth grows by one, per the counterexample). The first conjunct gives the
exact emitted code for a one-case no-default switch: the branch's two
`Pop`s (comparison result, then switched value) precede the body, and the
code ends with the false-path `Pop`, the patch target. -/
theorem C6_switch_pop_discipline (st : EmitState) (E e b : List Nat) (line : Nat) :
    (switch_statement st E [.caseItem e b] line).chunk.code =
      st.chunk.code ++ E ++ [OPCODE_DUPLICATE] ++ e ++ [OPCODE_EQUAL] ++
      [OPCODE_JUMP_IF_FALSE,
        ([OPCODE_POP, OPCODE_POP] ++ b ++ [OPCODE_JUMP, 255, 255]).length / 256 % 256,
        ([OPCODE_POP, OPCODE_POP] ++ b ++ [OPCODE_JUMP, 255, 255]).length % 256] ++
      [OPCODE_POP, OPCODE_POP] ++ b ++ [OPCODE_JUMP, 0, 1] ++ [OPCODE_POP] ∧
    exC6b_m.stack.length = 1 ∧
    run_stack_length (exC6b_m.perform 100) = some 1 ∧
    exC6c_m.stack.length = 1 ∧
    run_stack_length (exC6c_m.perform 100) = some 1 :=
  ⟨switch_one_case_emission st E e b line, rfl, rfl, rfl, rfl⟩

end Fox
